import Mathlib

/-!
Verification of the blocklist compiler (`blocklist/app.py`).

The Python source is shallowly embedded below: IPv4 addresses are `Nat`
values below `2^32`, networks are their (masked) base address together with
a prefix length, the mutable dictionaries/sets of the compiler are explicit
association lists / deduplicated lists, and the network fetch is a
parameter `fetchText : String → String` of the compilation environment
(in the program it is `requests.get`, which on any failure degrades to the
empty string).  Python's `next(iter(s))` on a set, used to choose the
representative member of a promoted /24, has unspecified order, so it is
modelled by an explicit choice parameter `pick`.
-/

namespace Blocklist

/-! ## Python string helpers -/

/-- Whitespace characters stripped by Python's `str.strip()` (ASCII part). -/
def pySpace (c : Char) : Bool :=
  c == ' ' || c == '\t' || c == '\n' || c == '\r' || c == '\x0b' || c == '\x0c'

/-- `str.strip()` on a character list. -/
def pyStripL (cs : List Char) : List Char :=
  ((cs.dropWhile pySpace).reverse.dropWhile pySpace).reverse

/-- `str.strip()`. -/
def pyStrip (s : String) : String := ⟨pyStripL s.data⟩

/-- Numeric value of a digit string (`int(...)` on an all-digit string). -/
def digitsToNat (cs : List Char) : Nat :=
  cs.foldl (fun a c => a * 10 + (c.toNat - 48)) 0

/-- `str.splitlines()` (ASCII line boundaries `\n`, `\r`, `\r\n`):
a trailing terminator does not produce a final empty line. -/
def splitlinesAux : List Char → List Char → List (List Char)
  | [], cur => if cur.isEmpty then [] else [cur.reverse]
  | '\r' :: '\n' :: rest, cur => cur.reverse :: splitlinesAux rest []
  | '\n' :: rest, cur => cur.reverse :: splitlinesAux rest []
  | '\r' :: rest, cur => cur.reverse :: splitlinesAux rest []
  | c :: rest, cur => splitlinesAux rest (c :: cur)

def splitlines (cs : List Char) : List (List Char) := splitlinesAux cs []

/-- `line.split(delim, 1)[0]`: the part of `cs` before the first occurrence
of the (non-empty) delimiter, or all of `cs` when it does not occur. -/
def splitFirstOn (delim : List Char) : List Char → List Char
  | [] => []
  | c :: rest =>
    if delim.isPrefixOf (c :: rest) then [] else c :: splitFirstOn delim rest

/-- `c.split(sep)` for a single-character separator. -/
def splitOnCharAux (sep : Char) : List Char → List Char → List (List Char)
  | [], cur => [cur.reverse]
  | c :: rest, cur =>
    if c == sep then cur.reverse :: splitOnCharAux sep rest []
    else splitOnCharAux sep rest (c :: cur)

def splitOnChar (sep : Char) (cs : List Char) : List (List Char) :=
  splitOnCharAux sep cs []

/-! ## `ipaddress` parsing (the stdlib calls made by the extractor) -/

/-- One dotted-quad octet as accepted by `ipaddress.IPv4Address`: 1--3
ASCII digits, no leading zero, value at most 255. -/
def parseOctet (cs : List Char) : Option Nat :=
  if cs.isEmpty then none
  else if !cs.all Char.isDigit then none
  else if 3 < cs.length then none
  else if 1 < cs.length && cs.head? == some '0' then none
  else
    let v := digitsToNat cs
    if v ≤ 255 then some v else none

/-- `ipaddress.IPv4Address(token)` as a 32-bit value. -/
def parseIPv4 (cs : List Char) : Option Nat :=
  match splitOnChar '.' cs with
  | [a, b, c, d] =>
    match parseOctet a, parseOctet b, parseOctet c, parseOctet d with
    | some x, some y, some z, some w =>
      some (x * 16777216 + y * 65536 + z * 256 + w)
    | _, _, _, _ => none
  | _ => none

/-- `ipaddress.IPv4Interface(token).ip`: `addr` or `addr/plen` with a
numeric prefix length 0..32 (dotted-mask forms are not modelled); the
prefix is discarded and the address part returned. -/
def parseInterfaceIp (cs : List Char) : Option Nat :=
  match splitOnChar '/' cs with
  | [a] => parseIPv4 a
  | [a, p] =>
    match parseIPv4 a with
    | some ip =>
      if !p.isEmpty && p.all Char.isDigit && digitsToNat p ≤ 32 then some ip
      else none
    | none => none
  | _ => none

/-- `extract_ipv4s_from_text(text, delimiter)`: split into lines, strip,
take the token before the first delimiter occurrence, strip it, then try
`IPv4Address` and fall back to `IPv4Interface`; unparseable lines are
silently skipped. -/
def extract_ipv4s_from_text (text : String) (delimiter : String) : List Nat :=
  let d := if delimiter.data.isEmpty then ['\n'] else delimiter.data
  (splitlines text.data).filterMap fun line =>
    let stripped := pyStripL line
    if stripped.isEmpty then none
    else
      let token := pyStripL (splitFirstOn d stripped)
      if token.isEmpty then none
      else
        match parseIPv4 token with
        | some ip => some ip
        | none => parseInterfaceIp token

/-! ## Data model -/

/-- `GLOBAL_COMMENT` (default value of the environment variable). -/
def GLOBAL_COMMENT : String := "compiled-blocklist"

/-- One configured feed, as produced by `load_sources_from_yaml`. -/
structure Source where
  id : Int
  name : String
  url : String
  is_active : Bool
  delimiter : String
  cidr_mode : String
  comment : String
deriving DecidableEq, Repr

/-- A whitelist network: masked base address plus prefix length,
as produced by `ipaddress.ip_network(entry, strict=False)`. -/
structure WlNet where
  base : Nat
  plen : Nat
deriving DecidableEq, Repr

/-- `ip in net` for an `IPv4Network` (network address ≤ ip ≤ broadcast). -/
def wlContainsB (w : WlNet) (ip : Nat) : Bool :=
  decide (w.base ≤ ip ∧ ip < w.base + 2 ^ (32 - w.plen))

/-- `any(ip in net for net in wl_nets)`. -/
def wlHitB (wl : List WlNet) (ip : Nat) : Bool :=
  wl.any fun w => wlContainsB w ip

/-- The containing /24's network address:
`IPv4Network(f"{ip.exploded}/24", strict=False).network_address`. -/
def net24 (ip : Nat) : Nat := ip / 256 * 256

/-- `ip.exploded` / `str(ip)` for an `IPv4Address`. -/
def ipStr (n : Nat) : String :=
  toString (n / 16777216 % 256) ++ "." ++ toString (n / 65536 % 256) ++ "."
    ++ toString (n / 256 % 256) ++ "." ++ toString (n % 256)

/-- `str(net)` for an `IPv4Network` (`with_prefixlen`). -/
def netStr (w : WlNet) : String := ipStr w.base ++ "/" ++ toString w.plen

/-- `cidr_mode = src.get("cidr_mode") or "32"`. -/
def modeOf (s : Source) : String :=
  if s.cidr_mode = "" then "32" else s.cidr_mode

/-- `delim = src.get("delimiter") or "\n"`. -/
def delimOf (s : Source) : String :=
  if s.delimiter = "" then "\n" else s.delimiter

/-- `(src.get("name") or src.get("comment") or GLOBAL_COMMENT).strip() or
GLOBAL_COMMENT`. -/
def sourceComment (s : Source) : String :=
  let c := pyStrip (if s.name ≠ "" then s.name
    else if s.comment ≠ "" then s.comment else GLOBAL_COMMENT)
  if c = "" then GLOBAL_COMMENT else c

/-- The compilation environment: the loaded source registry, the fetch
effect, the aggregation threshold, and the set-iteration choice used for a
promoted /24's representative member. -/
structure CompileEnv where
  registry : List Source
  fetchText : String → String
  threshold : Nat
  pick : List Nat → Nat

/-- `get_active_sources()`. -/
def activeSources (env : CompileEnv) : List Source :=
  env.registry.filter fun s => s.is_active

/-- `src_by_id = {int(s["id"]): s for s in sources}` (last entry wins)
followed by lookup. -/
def srcById (env : CompileEnv) (i : Int) : Option Source :=
  (activeSources env).reverse.find? fun s => s.id == i

/-- The `selected` list: each requested id that resolves, in request
order. -/
def selectedSources (env : CompileEnv) (sids : List Int) : List Source :=
  sids.filterMap (srcById env)

/-- The addresses one source contributes before whitelist filtering:
`fetch_list` followed by `extract_ipv4s_from_text` (an empty fetch result
is skipped). -/
def extractOf (env : CompileEnv) (s : Source) : List Nat :=
  let text := env.fetchText s.url
  if text = "" then [] else extract_ipv4s_from_text text (delimOf s)

/-! ## The aggregation loop of `compile_custom_blocklist` -/

/-- The mutable state of the source loop: `all_ips`, `explicit_nets24`,
`explicit_nets24_comment` and `ip_first_comment` (dictionaries as
association lists; insertion appends, so `List.lookup` returns the first
inserted binding). -/
structure AggState where
  allIps : List Nat
  explicitNets : List Nat
  explicitComment : List (Nat × String)
  ipComment : List (Nat × String)
deriving Repr

def AggState.init : AggState := ⟨[], [], [], []⟩

/-- Loop body of the `cidr_mode == "24"` branch for one extracted ip. -/
def stepIp24 (wl : List WlNet) (c : String) (st : AggState) (ip : Nat) :
    AggState :=
  if wlHitB wl ip then st
  else
    let n := net24 ip
    if st.explicitNets.contains n then st
    else { st with
      explicitNets := st.explicitNets ++ [n]
      explicitComment := st.explicitComment ++ [(n, c)] }

/-- Loop body of the AUTO32 branch for one extracted ip. -/
def stepIp32 (wl : List WlNet) (c : String) (st : AggState) (ip : Nat) :
    AggState :=
  if wlHitB wl ip then st
  else if st.allIps.contains ip then st
  else { st with
    allIps := st.allIps ++ [ip]
    ipComment := st.ipComment ++ [(ip, c)] }

/-- One iteration of the `for src in selected` loop. -/
def processSource (wl : List WlNet) (env : CompileEnv) (st : AggState)
    (s : Source) : AggState :=
  let text := env.fetchText s.url
  if text = "" then st
  else
    let ips := extract_ipv4s_from_text text (delimOf s)
    let c := sourceComment s
    if modeOf s = "24" then ips.foldl (stepIp24 wl c) st
    else ips.foldl (stepIp32 wl c) st

/-- The state after the whole source loop. -/
def aggStateOf (env : CompileEnv) (wl : List WlNet) (sids : List Int) :
    AggState :=
  (selectedSources env sids).foldl (processSource wl env) AggState.init

/-- `per_net24[net]` as a list: the distinct surviving AUTO32 addresses
inside the /24. -/
def membersOf (st : AggState) (n : Nat) : List Nat :=
  st.allIps.filter fun ip => net24 ip == n

/-- `aggregated_nets24`: the /24s whose distinct member count reaches the
threshold. -/
def aggNetsOf (env : CompileEnv) (st : AggState) : List Nat :=
  ((st.allIps.map net24).dedup).filter fun n =>
    env.threshold ≤ (membersOf st n).length

/-- `aggregated_nets24_comment` (dictionary as association list); the
representative member `first_ip = next(iter(ips_set))` is `env.pick` of
the group. -/
def aggCommentOf (env : CompileEnv) (st : AggState) : List (Nat × String) :=
  (aggNetsOf env st).map fun n =>
    (n, ((st.ipComment.lookup (env.pick (membersOf st n))).getD GLOBAL_COMMENT))

/-- `remaining_ips`: surviving addresses whose /24 is in neither network
set. -/
def remainingOf (env : CompileEnv) (st : AggState) : List Nat :=
  st.allIps.filter fun ip =>
    !st.explicitNets.contains (net24 ip) &&
      !(aggNetsOf env st).contains (net24 ip)

/-- `final_nets24 = set(explicit_nets24) | set(aggregated_nets24)`. -/
def finalNetsOf (env : CompileEnv) (st : AggState) : List Nat :=
  (st.explicitNets ++ aggNetsOf env st).dedup

/-- `sorted(final_nets24, key=(int(network_address), prefixlen))`; every
network here is a /24, so the second key component is constant. -/
def sortedNetsOf (env : CompileEnv) (st : AggState) : List Nat :=
  (finalNetsOf env st).insertionSort (· ≤ ·)

/-- `sorted(remaining_ips, key=int)`. -/
def sortedIpsOf (env : CompileEnv) (st : AggState) : List Nat :=
  (remainingOf env st).insertionSort (· ≤ ·)

/-- Comment chosen for a rendered /24 line. -/
def netCommentOf (env : CompileEnv) (st : AggState) (n : Nat) : String :=
  match st.explicitComment.lookup n with
  | some c => c
  | none => ((aggCommentOf env st).lookup n).getD GLOBAL_COMMENT

/-- Comment chosen for a rendered /32 line. -/
def ipLineCommentOf (st : AggState) (ip : Nat) : String :=
  (st.ipComment.lookup ip).getD GLOBAL_COMMENT

/-- The rendered line list of `compile_custom_blocklist`. -/
def linesOf (env : CompileEnv) (wl : List WlNet) (list_name timeout : String)
    (sids : List Int) : List String :=
  let st := aggStateOf env wl sids
  ["/ip firewall address-list",
    "remove [find list=\"" ++ list_name ++ "\"]"]
  ++ ((sortedNetsOf env st).map fun n =>
      "add list=" ++ list_name ++ " address=" ++ ipStr n ++ "/24 comment=\""
        ++ netCommentOf env st n ++ "\" timeout=" ++ timeout)
  ++ ((sortedIpsOf env st).map fun ip =>
      "add list=" ++ list_name ++ " address=" ++ ipStr ip ++ " comment=\""
        ++ ipLineCommentOf st ip ++ "\" timeout=" ++ timeout)

/-- `"\n".join(lines) + "\n"`. -/
def scriptOf (env : CompileEnv) (wl : List WlNet) (list_name timeout : String)
    (sids : List Int) : String :=
  String.intercalate "\n" (linesOf env wl list_name timeout sids) ++ "\n"

/-- `compile_custom_blocklist`: validation, aggregation, rendering. -/
def compile_custom_blocklist (env : CompileEnv) (list_name timeout : String)
    (source_ids : List Int) (whitelist_nets : List WlNet) :
    Except String String :=
  if source_ids.isEmpty then .error "No sources selected"
  else if (selectedSources env source_ids).isEmpty then
    .error "Unknown sources"
  else .ok (scriptOf env whitelist_nets list_name timeout source_ids)

/-! ## `parse_timeout` -/

/-- `f"{n:02d}"`: pad to two digits with a leading zero. -/
def pad2 (n : Nat) : String := if n < 10 then "0" ++ toString n else toString n

/-- Canonical re-serialization of a total number of seconds
(lines 245--252 of `app.py`): divmod into days/h/m/s, omit the day
component when it is zero. -/
def canonicalTimeout (total : Nat) : String :=
  let days := total / 86400
  let rem := total % 86400
  let h := rem / 3600
  let rem2 := rem % 3600
  let m := rem2 / 60
  let s := rem2 % 60
  if days ≠ 0 then
    toString days ++ "d " ++ pad2 h ++ ":" ++ pad2 m ++ ":" ++ pad2 s
  else pad2 h ++ ":" ++ pad2 m ++ ":" ++ pad2 s

/-- `re.match(r"^(\d{1,2}):(\d{2}):(\d{2})$", txt)`, returning the three
field values.  The regex is deterministic here (the character after the
hour field must be `:`, which is not a digit), so a greedy split into
digit runs is equivalent. -/
def matchHMS (cs : List Char) : Option (Nat × Nat × Nat) :=
  let h := cs.takeWhile Char.isDigit
  let r1 := cs.dropWhile Char.isDigit
  if h.length < 1 || 2 < h.length then none
  else
    match r1 with
    | ':' :: r2 =>
      let m := r2.takeWhile Char.isDigit
      let r3 := r2.dropWhile Char.isDigit
      if m.length ≠ 2 then none
      else
        match r3 with
        | ':' :: r4 =>
          let s := r4.takeWhile Char.isDigit
          let r5 := r4.dropWhile Char.isDigit
          if s.length = 2 && r5.isEmpty then
            some (digitsToNat h, digitsToNat m, digitsToNat s)
          else none
        | _ => none
    | _ => none

/-- `re.match(r"^(\d+)d\s*(\d{1,2}):(\d{2}):(\d{2})$", txt)`, returning
days plus the three field values. -/
def matchDHMS (cs : List Char) : Option (Nat × Nat × Nat × Nat) :=
  let d := cs.takeWhile Char.isDigit
  let r1 := cs.dropWhile Char.isDigit
  if d.isEmpty then none
  else
    match r1 with
    | 'd' :: r2 =>
      (matchHMS (r2.dropWhile pySpace)).map fun hms => (digitsToNat d, hms)
    | _ => none

/-- `MAX_SECONDS = 3 * 24 * 3600`. -/
def MAX_SECONDS : Nat := 259200

/-- `DEFAULT_TIMEOUT = "02:00:00"`. -/
def DEFAULT_TIMEOUT : String := "02:00:00"

/-- The two `re.match` attempts of `parse_timeout`, in program order:
first the `<days>d` pattern, then the plain `HH:MM:SS` pattern (which
yields zero days). -/
def matchTimeout (cs : List Char) : Option (Nat × Nat × Nat × Nat) :=
  match matchDHMS cs with
  | some v => some v
  | none => (matchHMS cs).map fun hms => (0, hms)

/-- `days * 86400 + h * 3600 + m * 60 + s` for a parsed tuple. -/
def totalOf (v : Nat × Nat × Nat × Nat) : Nat :=
  v.1 * 86400 + v.2.1 * 3600 + v.2.2.1 * 60 + v.2.2.2

/-- `parse_timeout(raw)`: `None`/blank input yields the default; otherwise
match one of the two forms, range-check the total, and re-serialize it
canonically; a `ValueError` is an `Except.error`. -/
def parse_timeout (raw : Option String) : Except String String :=
  match raw with
  | none => .ok DEFAULT_TIMEOUT
  | some r =>
    let txt := pyStripL r.data
    if txt.isEmpty then .ok DEFAULT_TIMEOUT
    else
      match matchTimeout txt with
      | none => .error "Invalid timeout format"
      | some v =>
        if totalOf v = 0 || MAX_SECONDS < totalOf v then
          .error "Timeout exceeds maximum (3d) or is zero"
        else .ok (canonicalTimeout (totalOf v))


/-! ## `get_custom_script_cached` -/

/-- A cache key: canonical list name, canonical timeout, sorted selected
ids, sorted whitelist network strings. -/
def CacheKey := String × String × List Int × List String
deriving DecidableEq

/-- The whitelist fingerprint stored inside every cache key:
`tuple(sorted(str(net) for net in whitelist_nets))`. -/
def wlFingerprint (wl : List WlNet) : List String :=
  (wl.map netStr).insertionSort (· ≤ ·)

/-- `key = (list_name, timeout, tuple(sorted(source_ids)), tuple(sorted(...)))`. -/
def cacheKey (list_name timeout : String) (sids : List Int)
    (wl : List WlNet) : CacheKey :=
  (list_name, timeout, sids.insertionSort (· ≤ ·), wlFingerprint wl)

/-- `_custom_cache` as an association list from keys to `(ts, data)`. -/
def Cache := List (CacheKey × (Int × String))

/-- `_custom_cache[key] = {...}` (dictionary assignment). -/
def cacheInsert (c : Cache) (k : CacheKey) (v : Int × String) : Cache :=
  (k, v) :: (c : List (CacheKey × (Int × String))).filter fun e => !decide (e.1 = k)

/-- `_custom_cache.get(key)`. -/
def cacheLookup (c : Cache) (k : CacheKey) : Option (Int × String) :=
  (c : List (CacheKey × (Int × String))).find? (fun e => decide (e.1 = k)) |>.map Prod.snd

/-- `get_custom_script_cached`: return the cached script while the entry
is within TTL, otherwise recompute through the pipeline, store and return
(the updated cache is returned alongside; a compile error propagates and
leaves the cache unchanged). -/
def get_custom_script_cached (env : CompileEnv) (cache : Cache)
    (now ttl : Int) (list_name timeout : String) (source_ids : List Int)
    (whitelist_nets : List WlNet) : Except String (String × Cache) :=
  match cacheLookup cache
    (cacheKey list_name timeout source_ids whitelist_nets) with
  | some (ts, data) =>
    if now - ts ≤ ttl then .ok (data, cache)
    else
      (compile_custom_blocklist env list_name timeout source_ids
        whitelist_nets).map fun s =>
          (s, cacheInsert cache
            (cacheKey list_name timeout source_ids whitelist_nets) (now, s))
  | none =>
    (compile_custom_blocklist env list_name timeout source_ids
      whitelist_nets).map fun s =>
        (s, cacheInsert cache
          (cacheKey list_name timeout source_ids whitelist_nets) (now, s))


/-- Claim-side count: the distinct surviving addresses inside the /24 `n`,
collected across all selected AUTO32 sources together. -/
def survivors32 (env : CompileEnv) (wl : List WlNet) (sids : List Int)
    (n : Nat) : List Nat :=
  ((((selectedSources env sids).filter fun s => modeOf s ≠ "24").bind
    (extractOf env)).filter fun ip => !wlHitB wl ip && net24 ip == n).dedup


/-! ## Spec-side rendering (the claims' description of the script) -/

/-- Concatenation of a list of strings. -/
def specJoin : List String → String
  | [] => ""
  | x :: xs => x ++ specJoin xs

/-- The script format as the specification words it: a first line
selecting the firewall address-list context, a second line removing all
entries under the list name, one add line per /24 network with a quoted
comment and the timeout, one add line per leftover address, and a
trailing newline. -/
def specRender (list_name timeout : String) (nets ips : List (Nat × String)) :
    String :=
  "/ip firewall address-list" ++ "\n"
    ++ ("remove [find list=\"" ++ list_name ++ "\"]")
    ++ specJoin (nets.map fun p =>
      "\n" ++ ("add list=" ++ list_name ++ " address=" ++ ipStr p.1
        ++ "/24 comment=\"" ++ p.2 ++ "\" timeout=" ++ timeout))
    ++ specJoin (ips.map fun p =>
      "\n" ++ ("add list=" ++ list_name ++ " address=" ++ ipStr p.1
        ++ " comment=\"" ++ p.2 ++ "\" timeout=" ++ timeout))
    ++ "\n"

/-! ## Spec-side timeout grammar (the claim's description of the forms) -/

/-- The form `HH:MM:SS` with total value `t`: a 1--2 digit hour field and
exactly-two-digit minute and second fields. -/
def TimeoutFormHMS (cs : List Char) (t : Nat) : Prop :=
  ∃ h m s : List Char,
    cs = h ++ ':' :: (m ++ ':' :: s) ∧
    h ≠ [] ∧ h.length ≤ 2 ∧ (∀ c ∈ h, c.isDigit = true) ∧
    m.length = 2 ∧ (∀ c ∈ m, c.isDigit = true) ∧
    s.length = 2 ∧ (∀ c ∈ s, c.isDigit = true) ∧
    t = digitsToNat h * 3600 + digitsToNat m * 60 + digitsToNat s

/-- The form `<days>d HH:MM:SS` with total value `t` (the space after the
`d` is `\s*` in the program's pattern, i.e. any run of whitespace,
including none). -/
def TimeoutFormDHMS (cs : List Char) (t : Nat) : Prop :=
  ∃ (d sp rest : List Char) (hms : Nat),
    cs = d ++ 'd' :: (sp ++ rest) ∧
    d ≠ [] ∧ (∀ c ∈ d, c.isDigit = true) ∧
    (∀ c ∈ sp, pySpace c = true) ∧
    TimeoutFormHMS rest hms ∧
    t = digitsToNat d * 86400 + hms

/-- One of the two accepted timeout forms, with total value `t`. -/
def TimeoutForm (cs : List Char) (t : Nat) : Prop :=
  TimeoutFormHMS cs t ∨ TimeoutFormDHMS cs t

/-- `f"{n:02d}"` for `n ≤ 99`, built from its two digit characters. -/
def mk2 (n : Nat) : String :=
  ⟨[Char.ofNat (48 + n / 10), Char.ofNat (48 + n % 10)]⟩

/-! ## Concrete test fixture (used by witnesses) -/

/-- A small AUTO32 feed source. -/
def wSrcA : Source := ⟨1, "feedA", "u1", true, "", "32", ""⟩

/-- A small EXPLICIT24 feed source. -/
def wSrcB : Source := ⟨2, "feedB", "u2", true, "", "24", ""⟩

/-- A source whose feed is unreachable (its fetch yields empty text). -/
def wSrcC : Source := ⟨3, "feedC", "u3", true, "", "32", ""⟩

/-- Concrete fetch results for the fixture sources. -/
def wFetch : String → String := fun u =>
  if u = "u1" then "1.1.1.1\n1.1.1.2\n10.0.0.5\n2.2.2.2"
  else if u = "u2" then "9.9.9.9"
  else ""

/-- A concrete compilation environment with threshold 2. -/
def wEnv : CompileEnv := ⟨[wSrcA, wSrcB, wSrcC], wFetch, 2, fun l => l.headD 0⟩

/-- A concrete whitelist: `10.0.0.0/24`. -/
def wWl : List WlNet := [⟨167772160, 24⟩]

/-! ## Contribution predicates (the claims' vocabulary) -/

/-- `s` contributes address `ip` on the AUTO32 path: the source is not in
explicit mode, `ip` is extracted from its fetched feed, and `ip` survives
whitelist filtering. -/
def contributes32 (env : CompileEnv) (wl : List WlNet) (s : Source)
    (ip : Nat) : Bool :=
  modeOf s ≠ "24" && (extractOf env s).contains ip && !wlHitB wl ip

/-- `s` contributes the /24 network `n` on the EXPLICIT24 path: the source
is in explicit mode and some surviving extracted address maps into `n`. -/
def contributes24 (env : CompileEnv) (wl : List WlNet) (s : Source)
    (n : Nat) : Bool :=
  modeOf s = "24" &&
    (extractOf env s).any fun ip => !wlHitB wl ip && net24 ip == n

/-- `s` contributes address `ip` in either mode (`ip` is extracted and
survives whitelist filtering). -/
def contributesAny (env : CompileEnv) (wl : List WlNet) (s : Source)
    (ip : Nat) : Bool :=
  (extractOf env s).contains ip && !wlHitB wl ip

/-! ## Characterization of the aggregation loop -/

section LoopLemmas

variable {env : CompileEnv} {wl : List WlNet} {c : String}

@[simp] theorem stepIp24_allIps (st : AggState) (ip : Nat) :
    (stepIp24 wl c st ip).allIps = st.allIps := by
  unfold stepIp24; split <;> simp <;> split <;> simp

@[simp] theorem stepIp24_ipComment (st : AggState) (ip : Nat) :
    (stepIp24 wl c st ip).ipComment = st.ipComment := by
  unfold stepIp24; split <;> simp <;> split <;> simp

@[simp] theorem stepIp32_explicitNets (st : AggState) (ip : Nat) :
    (stepIp32 wl c st ip).explicitNets = st.explicitNets := by
  unfold stepIp32; split <;> simp <;> split <;> simp

@[simp] theorem stepIp32_explicitComment (st : AggState) (ip : Nat) :
    (stepIp32 wl c st ip).explicitComment = st.explicitComment := by
  unfold stepIp32; split <;> simp <;> split <;> simp

@[simp] theorem foldl24_allIps (ips : List Nat) (st : AggState) :
    (ips.foldl (stepIp24 wl c) st).allIps = st.allIps := by
  induction ips generalizing st with
  | nil => rfl
  | cons ip t ih => simp [ih]

@[simp] theorem foldl24_ipComment (ips : List Nat) (st : AggState) :
    (ips.foldl (stepIp24 wl c) st).ipComment = st.ipComment := by
  induction ips generalizing st with
  | nil => rfl
  | cons ip t ih => simp [ih]

@[simp] theorem foldl32_explicitNets (ips : List Nat) (st : AggState) :
    (ips.foldl (stepIp32 wl c) st).explicitNets = st.explicitNets := by
  induction ips generalizing st with
  | nil => rfl
  | cons ip t ih => simp [ih]

@[simp] theorem foldl32_explicitComment (ips : List Nat) (st : AggState) :
    (ips.foldl (stepIp32 wl c) st).explicitComment = st.explicitComment := by
  induction ips generalizing st with
  | nil => rfl
  | cons ip t ih => simp [ih]

theorem stepIp32_eq_of_wl {st : AggState} {ip : Nat}
    (hwl : wlHitB wl ip = true) : stepIp32 wl c st ip = st := by
  unfold stepIp32
  rw [if_pos hwl]

theorem stepIp32_eq_of_mem {st : AggState} {ip : Nat}
    (hwl : wlHitB wl ip = false) (hmem : ip ∈ st.allIps) :
    stepIp32 wl c st ip = st := by
  unfold stepIp32
  rw [if_neg (by simp [hwl]), if_pos (by simpa [List.contains, List.elem_iff])]

theorem stepIp32_eq_add {st : AggState} {ip : Nat}
    (hwl : wlHitB wl ip = false) (hmem : ip ∉ st.allIps) :
    stepIp32 wl c st ip =
      { st with
          allIps := st.allIps ++ [ip]
          ipComment := st.ipComment ++ [(ip, c)] } := by
  unfold stepIp32
  rw [if_neg (by simp [hwl]), if_neg (by simpa [List.contains, List.elem_iff])]

theorem stepIp24_eq_of_wl {st : AggState} {ip : Nat}
    (hwl : wlHitB wl ip = true) : stepIp24 wl c st ip = st := by
  unfold stepIp24
  rw [if_pos hwl]

theorem stepIp24_eq_of_mem {st : AggState} {ip : Nat}
    (hwl : wlHitB wl ip = false) (hmem : net24 ip ∈ st.explicitNets) :
    stepIp24 wl c st ip = st := by
  unfold stepIp24
  rw [if_neg (by simp [hwl])]
  simp only []
  rw [if_pos (by simpa [List.contains, List.elem_iff])]

theorem stepIp24_eq_add {st : AggState} {ip : Nat}
    (hwl : wlHitB wl ip = false) (hmem : net24 ip ∉ st.explicitNets) :
    stepIp24 wl c st ip =
      { st with
          explicitNets := st.explicitNets ++ [net24 ip]
          explicitComment := st.explicitComment ++ [(net24 ip, c)] } := by
  unfold stepIp24
  rw [if_neg (by simp [hwl])]
  simp only []
  rw [if_neg (by simpa [List.contains, List.elem_iff])]

theorem nodup_foldl32_allIps (ips : List Nat) (st : AggState)
    (h : st.allIps.Nodup) : (ips.foldl (stepIp32 wl c) st).allIps.Nodup := by
  induction ips generalizing st with
  | nil => exact h
  | cons ip t ih =>
    refine ih _ ?_
    unfold stepIp32
    by_cases hwl : wlHitB wl ip = true
    · simpa [hwl] using h
    · by_cases hmem : st.allIps.contains ip = true
      · rw [List.contains, List.elem_iff] at hmem
        simpa [hwl, hmem] using h
      · rw [List.contains, List.elem_iff] at hmem
        simp only [hwl, hmem, if_false, Bool.false_eq_true]
        simpa [List.nodup_append, hmem] using h

theorem nodup_foldl24_explicitNets (ips : List Nat) (st : AggState)
    (h : st.explicitNets.Nodup) :
    (ips.foldl (stepIp24 wl c) st).explicitNets.Nodup := by
  induction ips generalizing st with
  | nil => exact h
  | cons ip t ih =>
    refine ih _ ?_
    unfold stepIp24
    by_cases hwl : wlHitB wl ip = true
    · simpa [hwl] using h
    · by_cases hmem : st.explicitNets.contains (net24 ip) = true
      · rw [List.contains, List.elem_iff] at hmem
        simpa [hwl, hmem] using h
      · rw [List.contains, List.elem_iff] at hmem
        simp only [hwl, hmem, if_false, Bool.false_eq_true]
        simpa [List.nodup_append, hmem] using h

theorem nodup_processSource_allIps (st : AggState) (s : Source)
    (h : st.allIps.Nodup) : (processSource wl env st s).allIps.Nodup := by
  unfold processSource
  by_cases htext : env.fetchText s.url = ""
  · simpa [htext] using h
  · by_cases hm : modeOf s = "24"
    · simpa [htext, hm] using h
    · simp only [if_neg htext, if_neg hm]
      exact nodup_foldl32_allIps _ _ h

theorem nodup_processSource_explicitNets (st : AggState) (s : Source)
    (h : st.explicitNets.Nodup) :
    (processSource wl env st s).explicitNets.Nodup := by
  unfold processSource
  by_cases htext : env.fetchText s.url = ""
  · simpa [htext] using h
  · by_cases hm : modeOf s = "24"
    · simp only [if_neg htext, if_pos hm]
      exact nodup_foldl24_explicitNets _ _ h
    · simpa [htext, hm] using h

/-- `all_ips` is duplicate-free (it models a Python set). -/
theorem nodup_aggState_allIps (env : CompileEnv) (wl : List WlNet)
    (sids : List Int) : (aggStateOf env wl sids).allIps.Nodup := by
  unfold aggStateOf
  generalize selectedSources env sids = srcs
  have h : AggState.init.allIps.Nodup := by simp [AggState.init]
  generalize AggState.init = st at h ⊢
  induction srcs generalizing st with
  | nil => exact h
  | cons s t ih => exact ih _ (nodup_processSource_allIps _ _ h)

/-- `explicit_nets24` is duplicate-free. -/
theorem nodup_aggState_explicitNets (env : CompileEnv) (wl : List WlNet)
    (sids : List Int) : (aggStateOf env wl sids).explicitNets.Nodup := by
  unfold aggStateOf
  generalize selectedSources env sids = srcs
  have h : AggState.init.explicitNets.Nodup := by simp [AggState.init]
  generalize AggState.init = st at h ⊢
  induction srcs generalizing st with
  | nil => exact h
  | cons s t ih => exact ih _ (nodup_processSource_explicitNets _ _ h)

theorem mem_foldl32_allIps (ips : List Nat) (st : AggState) (x : Nat) :
    x ∈ (ips.foldl (stepIp32 wl c) st).allIps ↔
      x ∈ st.allIps ∨ (x ∈ ips ∧ wlHitB wl x = false) := by
  induction ips generalizing st with
  | nil => simp
  | cons ip t ih =>
    simp only [List.foldl_cons, ih]
    unfold stepIp32
    by_cases hwl : wlHitB wl ip = true <;>
      by_cases hmem : st.allIps.contains ip = true <;>
        rw [List.contains, List.elem_iff] at hmem <;>
          simp only [hwl, hmem, if_true, if_false, Bool.false_eq_true,
            eq_self_iff_true, List.mem_append, List.mem_singleton,
            List.mem_cons, Bool.not_eq_true] <;>
            constructor <;> intro h <;>
              aesop

theorem mem_foldl24_explicitNets (ips : List Nat) (st : AggState) (x : Nat) :
    x ∈ (ips.foldl (stepIp24 wl c) st).explicitNets ↔
      x ∈ st.explicitNets ∨
        ∃ ip ∈ ips, wlHitB wl ip = false ∧ net24 ip = x := by
  induction ips generalizing st with
  | nil => simp
  | cons ip t ih =>
    simp only [List.foldl_cons, ih]
    unfold stepIp24
    by_cases hwl : wlHitB wl ip = true <;>
      by_cases hmem : st.explicitNets.contains (net24 ip) = true <;>
        rw [List.contains, List.elem_iff] at hmem <;>
          simp only [hwl, hmem, if_true, if_false, Bool.false_eq_true,
            eq_self_iff_true, List.mem_append, List.mem_singleton,
            List.mem_cons, Bool.not_eq_true] <;>
            constructor <;> intro h <;>
              aesop

theorem foldl32_keys (ips : List Nat) (st : AggState)
    (h : st.ipComment.map Prod.fst = st.allIps) :
    (ips.foldl (stepIp32 wl c) st).ipComment.map Prod.fst =
      (ips.foldl (stepIp32 wl c) st).allIps := by
  induction ips generalizing st with
  | nil => exact h
  | cons ip t ih =>
    refine ih _ ?_
    unfold stepIp32
    by_cases hwl : wlHitB wl ip = true
    · simpa [hwl] using h
    · by_cases hmem : st.allIps.contains ip = true
      · rw [List.contains, List.elem_iff] at hmem
        simp [hwl, hmem, h]
      · rw [List.contains, List.elem_iff] at hmem
        simp [hwl, hmem, h]

theorem foldl24_explicitKeys (ips : List Nat) (st : AggState)
    (h : st.explicitComment.map Prod.fst = st.explicitNets) :
    (ips.foldl (stepIp24 wl c) st).explicitComment.map Prod.fst =
      (ips.foldl (stepIp24 wl c) st).explicitNets := by
  induction ips generalizing st with
  | nil => exact h
  | cons ip t ih =>
    refine ih _ ?_
    unfold stepIp24
    by_cases hwl : wlHitB wl ip = true
    · simpa [hwl] using h
    · by_cases hmem : st.explicitNets.contains (net24 ip) = true
      · rw [List.contains, List.elem_iff] at hmem
        simp [hwl, hmem, h]
      · rw [List.contains, List.elem_iff] at hmem
        simp [hwl, hmem, h]

theorem processSource_keys (st : AggState) (s : Source)
    (h : st.ipComment.map Prod.fst = st.allIps) :
    (processSource wl env st s).ipComment.map Prod.fst =
      (processSource wl env st s).allIps := by
  unfold processSource
  by_cases htext : env.fetchText s.url = ""
  · simpa [htext] using h
  · by_cases hm : modeOf s = "24"
    · simpa [htext, hm] using h
    · simp only [if_neg htext, if_neg hm]
      exact foldl32_keys _ _ h

theorem processSource_explicitKeys (st : AggState) (s : Source)
    (h : st.explicitComment.map Prod.fst = st.explicitNets) :
    (processSource wl env st s).explicitComment.map Prod.fst =
      (processSource wl env st s).explicitNets := by
  unfold processSource
  by_cases htext : env.fetchText s.url = ""
  · simpa [htext] using h
  · by_cases hm : modeOf s = "24"
    · simp only [if_neg htext, if_pos hm]
      exact foldl24_explicitKeys _ _ h
    · simpa [htext, hm] using h

/-- The keys of `ip_first_comment` are exactly `all_ips`, in insertion
order. -/
theorem aggState_keys (env : CompileEnv) (wl : List WlNet)
    (sids : List Int) :
    (aggStateOf env wl sids).ipComment.map Prod.fst =
      (aggStateOf env wl sids).allIps := by
  unfold aggStateOf
  generalize selectedSources env sids = srcs
  have h : AggState.init.ipComment.map Prod.fst = AggState.init.allIps := rfl
  generalize AggState.init = st at h ⊢
  induction srcs generalizing st with
  | nil => exact h
  | cons s t ih => exact ih _ (processSource_keys _ _ h)

/-- The keys of `explicit_nets24_comment` are exactly `explicit_nets24`. -/
theorem aggState_explicitKeys (env : CompileEnv) (wl : List WlNet)
    (sids : List Int) :
    (aggStateOf env wl sids).explicitComment.map Prod.fst =
      (aggStateOf env wl sids).explicitNets := by
  unfold aggStateOf
  generalize selectedSources env sids = srcs
  have h : AggState.init.explicitComment.map Prod.fst
      = AggState.init.explicitNets := rfl
  generalize AggState.init = st at h ⊢
  induction srcs generalizing st with
  | nil => exact h
  | cons s t ih => exact ih _ (processSource_explicitKeys _ _ h)

theorem mem_processSource_allIps (st : AggState) (s : Source) (x : Nat) :
    x ∈ (processSource wl env st s).allIps ↔
      x ∈ st.allIps ∨ contributes32 env wl s x = true := by
  unfold processSource
  by_cases htext : env.fetchText s.url = ""
  · have hc : contributes32 env wl s x = false := by
      unfold contributes32 extractOf
      simp [htext]
    simp [htext, hc]
  · by_cases hm : modeOf s = "24"
    · have hc : contributes32 env wl s x = false := by
        unfold contributes32
        simp [hm]
      simp [htext, hm, hc]
    · simp only [if_neg htext, if_neg hm, mem_foldl32_allIps]
      unfold contributes32 extractOf
      simp [htext, hm, List.contains, List.elem_iff]

theorem mem_processSource_explicitNets (st : AggState) (s : Source)
    (x : Nat) :
    x ∈ (processSource wl env st s).explicitNets ↔
      x ∈ st.explicitNets ∨ contributes24 env wl s x = true := by
  unfold processSource
  by_cases htext : env.fetchText s.url = ""
  · have hc : contributes24 env wl s x = false := by
      unfold contributes24 extractOf
      simp [htext]
    simp [htext, hc]
  · by_cases hm : modeOf s = "24"
    · simp only [if_neg htext, if_pos hm, mem_foldl24_explicitNets]
      unfold contributes24 extractOf
      simp only [htext, if_neg htext, hm, List.any_eq_true, Bool.and_eq_true,
        decide_eq_true_eq, Bool.not_eq_true', beq_iff_eq, true_and]
      constructor
      · rintro (h | ⟨ip, hip, hw, hn⟩)
        · exact Or.inl h
        · exact Or.inr ⟨ip, hip, hw, hn⟩
      · rintro (h | ⟨ip, hip, hw, hn⟩)
        · exact Or.inl h
        · exact Or.inr ⟨ip, hip, hw, hn⟩
    · have hc : contributes24 env wl s x = false := by
        unfold contributes24
        simp [hm]
      simp [htext, hm, hc]

theorem mem_foldSources_allIps (srcs : List Source) (st : AggState)
    (x : Nat) :
    x ∈ (srcs.foldl (processSource wl env) st).allIps ↔
      x ∈ st.allIps ∨ ∃ s ∈ srcs, contributes32 env wl s x = true := by
  induction srcs generalizing st with
  | nil => simp
  | cons s t ih =>
    simp only [List.foldl_cons, ih, mem_processSource_allIps, List.mem_cons]
    constructor
    · rintro ((h | h) | ⟨y, hy, hc⟩)
      · exact Or.inl h
      · exact Or.inr ⟨s, Or.inl rfl, h⟩
      · exact Or.inr ⟨y, Or.inr hy, hc⟩
    · rintro (h | ⟨y, hy | hy, hc⟩)
      · exact Or.inl (Or.inl h)
      · subst hy; exact Or.inl (Or.inr hc)
      · exact Or.inr ⟨y, hy, hc⟩

theorem mem_foldSources_explicitNets (srcs : List Source) (st : AggState)
    (x : Nat) :
    x ∈ (srcs.foldl (processSource wl env) st).explicitNets ↔
      x ∈ st.explicitNets ∨ ∃ s ∈ srcs, contributes24 env wl s x = true := by
  induction srcs generalizing st with
  | nil => simp
  | cons s t ih =>
    simp only [List.foldl_cons, ih, mem_processSource_explicitNets,
      List.mem_cons]
    constructor
    · rintro ((h | h) | ⟨y, hy, hc⟩)
      · exact Or.inl h
      · exact Or.inr ⟨s, Or.inl rfl, h⟩
      · exact Or.inr ⟨y, Or.inr hy, hc⟩
    · rintro (h | ⟨y, hy | hy, hc⟩)
      · exact Or.inl (Or.inl h)
      · subst hy; exact Or.inl (Or.inr hc)
      · exact Or.inr ⟨y, hy, hc⟩

/-- Membership in `all_ips` after the source loop: exactly the addresses
contributed by some selected AUTO32 source and surviving the whitelist. -/
theorem mem_aggState_allIps (env : CompileEnv) (wl : List WlNet)
    (sids : List Int) (x : Nat) :
    x ∈ (aggStateOf env wl sids).allIps ↔
      ∃ s ∈ selectedSources env sids, contributes32 env wl s x = true := by
  unfold aggStateOf
  rw [mem_foldSources_allIps]
  simp [AggState.init]

/-- Membership in `explicit_nets24` after the source loop. -/
theorem mem_aggState_explicitNets (env : CompileEnv) (wl : List WlNet)
    (sids : List Int) (x : Nat) :
    x ∈ (aggStateOf env wl sids).explicitNets ↔
      ∃ s ∈ selectedSources env sids, contributes24 env wl s x = true := by
  unfold aggStateOf
  rw [mem_foldSources_explicitNets]
  simp [AggState.init]

theorem lookup_foldl32 (ips : List Nat) (st : AggState) (x : Nat)
    (hkeys : st.ipComment.map Prod.fst = st.allIps) :
    (ips.foldl (stepIp32 wl c) st).ipComment.lookup x =
      (st.ipComment.lookup x).or
        (if x ∈ ips ∧ wlHitB wl x = false then some c else none) := by
  induction ips generalizing st with
  | nil => simp
  | cons ip t ih =>
    simp only [List.foldl_cons]
    by_cases hwl : wlHitB wl ip = true
    · rw [stepIp32_eq_of_wl hwl, ih st hkeys]
      by_cases hx : x = ip
      · subst hx
        simp [hwl]
      · simp [hx]
    · rw [Bool.not_eq_true] at hwl
      by_cases hmem : ip ∈ st.allIps
      · rw [stepIp32_eq_of_mem hwl hmem, ih st hkeys]
        by_cases hx : x = ip
        · subst hx
          have hsome : (st.ipComment.lookup x).isSome := by
            rw [List.lookup_isSome_iff]
            have : x ∈ st.ipComment.map Prod.fst := by rw [hkeys]; exact hmem
            obtain ⟨p, hp, hp1⟩ := List.mem_map.mp this
            exact ⟨p, hp, by simp [hp1]⟩
          obtain ⟨v, hv⟩ := Option.isSome_iff_exists.mp hsome
          rw [hv]
          simp
        · simp [hx]
      · rw [stepIp32_eq_add hwl hmem,
          ih _ (by simp [hkeys])]
        simp only [List.lookup_append]
        cases hl : st.ipComment.lookup x with
        | some v => simp
        | none =>
          simp only [Option.none_or]
          by_cases hx : x = ip
          · subst hx
            simp [List.lookup_cons, hwl]
          · have hbe : (x == ip) = false := beq_eq_false_iff_ne.mpr hx
            simp [List.lookup_cons, hbe, hx]

theorem lookup_foldl24 (ips : List Nat) (st : AggState) (n : Nat)
    (hkeys : st.explicitComment.map Prod.fst = st.explicitNets) :
    (ips.foldl (stepIp24 wl c) st).explicitComment.lookup n =
      (st.explicitComment.lookup n).or
        (if ∃ ip ∈ ips, wlHitB wl ip = false ∧ net24 ip = n then some c
          else none) := by
  induction ips generalizing st with
  | nil => simp
  | cons ip t ih =>
    simp only [List.foldl_cons]
    by_cases hwl : wlHitB wl ip = true
    · rw [stepIp24_eq_of_wl hwl, ih st hkeys]
      congr 1
      refine if_congr ?_ rfl rfl
      constructor
      · rintro ⟨y, hy, h1, h2⟩
        exact ⟨y, List.mem_cons_of_mem _ hy, h1, h2⟩
      · rintro ⟨y, hy, h1, h2⟩
        rcases List.mem_cons.mp hy with rfl | hy
        · rw [hwl] at h1; cases h1
        · exact ⟨y, hy, h1, h2⟩
    · rw [Bool.not_eq_true] at hwl
      by_cases hmem : net24 ip ∈ st.explicitNets
      · rw [stepIp24_eq_of_mem hwl hmem, ih st hkeys]
        by_cases hn : n = net24 ip
        · subst hn
          have hsome : (st.explicitComment.lookup (net24 ip)).isSome := by
            rw [List.lookup_isSome_iff]
            have : net24 ip ∈ st.explicitComment.map Prod.fst := by
              rw [hkeys]; exact hmem
            obtain ⟨p, hp, hp1⟩ := List.mem_map.mp this
            exact ⟨p, hp, by simp [hp1]⟩
          obtain ⟨v, hv⟩ := Option.isSome_iff_exists.mp hsome
          rw [hv]
          simp
        · congr 1
          refine if_congr ?_ rfl rfl
          constructor
          · rintro ⟨y, hy, h1, h2⟩
            exact ⟨y, List.mem_cons_of_mem _ hy, h1, h2⟩
          · rintro ⟨y, hy, h1, h2⟩
            rcases List.mem_cons.mp hy with rfl | hy
            · exact (hn h2.symm).elim
            · exact ⟨y, hy, h1, h2⟩
      · rw [stepIp24_eq_add hwl hmem,
          ih _ (by simp [hkeys])]
        simp only [List.lookup_append]
        cases hl : st.explicitComment.lookup n with
        | some v => simp
        | none =>
          simp only [Option.none_or]
          by_cases hn : n = net24 ip
          · subst hn
            have hex : ∃ y ∈ ip :: t, wlHitB wl y = false ∧ net24 y = net24 ip :=
              ⟨ip, List.mem_cons_self _ _, hwl, rfl⟩
            rw [if_pos hex]
            simp
          · have hbe : (n == net24 ip) = false := beq_eq_false_iff_ne.mpr hn
            simp only [List.lookup_cons, hbe, List.lookup_nil, Option.none_or]
            refine if_congr ?_ rfl rfl
            constructor
            · rintro ⟨y, hy, h1, h2⟩
              exact ⟨y, List.mem_cons_of_mem _ hy, h1, h2⟩
            · rintro ⟨y, hy, h1, h2⟩
              rcases List.mem_cons.mp hy with rfl | hy
              · exact (hn h2.symm).elim
              · exact ⟨y, hy, h1, h2⟩

theorem lookup_processSource_ipComment (st : AggState) (s : Source) (x : Nat)
    (hkeys : st.ipComment.map Prod.fst = st.allIps) :
    (processSource wl env st s).ipComment.lookup x =
      (st.ipComment.lookup x).or
        (if contributes32 env wl s x = true then some (sourceComment s)
          else none) := by
  unfold processSource
  by_cases htext : env.fetchText s.url = ""
  · have hc : contributes32 env wl s x = false := by
      unfold contributes32 extractOf
      simp [htext]
    simp [htext, hc]
  · by_cases hm : modeOf s = "24"
    · have hc : contributes32 env wl s x = false := by
        unfold contributes32
        simp [hm]
      simp [htext, hm, hc]
    · simp only [if_neg htext, if_neg hm]
      rw [lookup_foldl32 _ _ _ hkeys]
      congr 1
      refine if_congr ?_ rfl rfl
      unfold contributes32 extractOf
      simp [htext, hm, List.contains, List.elem_iff]

theorem lookup_processSource_explicitComment (st : AggState) (s : Source)
    (n : Nat)
    (hkeys : st.explicitComment.map Prod.fst = st.explicitNets) :
    (processSource wl env st s).explicitComment.lookup n =
      (st.explicitComment.lookup n).or
        (if contributes24 env wl s n = true then some (sourceComment s)
          else none) := by
  unfold processSource
  by_cases htext : env.fetchText s.url = ""
  · have hc : contributes24 env wl s n = false := by
      unfold contributes24 extractOf
      simp [htext]
    simp [htext, hc]
  · by_cases hm : modeOf s = "24"
    · simp only [if_neg htext, if_pos hm]
      rw [lookup_foldl24 _ _ _ hkeys]
      congr 1
      refine if_congr ?_ rfl rfl
      unfold contributes24 extractOf
      simp only [htext, if_neg htext, hm, List.any_eq_true, Bool.and_eq_true,
        decide_eq_true_eq, Bool.not_eq_true', beq_iff_eq, true_and]
      constructor
      · rintro ⟨y, hy, h1, h2⟩
        exact ⟨y, hy, h1, h2⟩
      · rintro ⟨y, hy, h1, h2⟩
        exact ⟨y, hy, h1, h2⟩
    · have hc : contributes24 env wl s n = false := by
        unfold contributes24
        simp [hm]
      simp [htext, hm, hc]

theorem lookup_foldSources_ipComment (srcs : List Source) (st : AggState)
    (x : Nat) (hkeys : st.ipComment.map Prod.fst = st.allIps) :
    (srcs.foldl (processSource wl env) st).ipComment.lookup x =
      (st.ipComment.lookup x).or
        ((srcs.find? fun s => contributes32 env wl s x).map sourceComment) := by
  induction srcs generalizing st with
  | nil => simp
  | cons s t ih =>
    simp only [List.foldl_cons]
    rw [ih _ (processSource_keys _ _ hkeys),
      lookup_processSource_ipComment _ _ _ hkeys, Option.or_assoc]
    congr 1
    by_cases hc : contributes32 env wl s x = true
    · simp [List.find?_cons, hc]
    · simp only [List.find?_cons]
      rw [Bool.not_eq_true] at hc
      simp [hc]

theorem lookup_foldSources_explicitComment (srcs : List Source)
    (st : AggState) (n : Nat)
    (hkeys : st.explicitComment.map Prod.fst = st.explicitNets) :
    (srcs.foldl (processSource wl env) st).explicitComment.lookup n =
      (st.explicitComment.lookup n).or
        ((srcs.find? fun s => contributes24 env wl s n).map sourceComment) := by
  induction srcs generalizing st with
  | nil => simp
  | cons s t ih =>
    simp only [List.foldl_cons]
    rw [ih _ (processSource_explicitKeys _ _ hkeys),
      lookup_processSource_explicitComment _ _ _ hkeys, Option.or_assoc]
    congr 1
    by_cases hc : contributes24 env wl s n = true
    · simp [List.find?_cons, hc]
    · simp only [List.find?_cons]
      rw [Bool.not_eq_true] at hc
      simp [hc]

/-- `ip_first_comment` holds, for every address, the comment of the first
selected source (in source order) that contributed it. -/
theorem lookup_aggState_ipComment (env : CompileEnv) (wl : List WlNet)
    (sids : List Int) (x : Nat) :
    (aggStateOf env wl sids).ipComment.lookup x =
      ((selectedSources env sids).find? fun s =>
        contributes32 env wl s x).map sourceComment := by
  unfold aggStateOf
  rw [lookup_foldSources_ipComment _ _ _ rfl]
  simp [AggState.init]

/-- `explicit_nets24_comment` holds, for every explicit /24, the comment
of the first selected source (in source order) that contributed it. -/
theorem lookup_aggState_explicitComment (env : CompileEnv) (wl : List WlNet)
    (sids : List Int) (n : Nat) :
    (aggStateOf env wl sids).explicitComment.lookup n =
      ((selectedSources env sids).find? fun s =>
        contributes24 env wl s n).map sourceComment := by
  unfold aggStateOf
  rw [lookup_foldSources_explicitComment _ _ _ rfl]
  simp [AggState.init]

end LoopLemmas

/-! ## Aggregation-level characterizations -/

theorem mem_membersOf (st : AggState) (n x : Nat) :
    x ∈ membersOf st n ↔ x ∈ st.allIps ∧ net24 x = n := by
  unfold membersOf
  simp [List.mem_filter]

theorem mem_survivors32 (env : CompileEnv) (wl : List WlNet)
    (sids : List Int) (n x : Nat) :
    x ∈ survivors32 env wl sids n ↔
      (∃ s ∈ selectedSources env sids, contributes32 env wl s x = true) ∧
        net24 x = n := by
  unfold survivors32 contributes32
  simp only [List.mem_dedup, List.mem_filter, List.mem_bind, Bool.and_eq_true,
    Bool.not_eq_true', beq_iff_eq, decide_eq_true_eq, List.contains,
    List.elem_iff]
  tauto

theorem mem_aggNetsOf (env : CompileEnv) (st : AggState) (n : Nat) :
    n ∈ aggNetsOf env st ↔
      (∃ ip ∈ st.allIps, net24 ip = n) ∧
        env.threshold ≤ (membersOf st n).length := by
  unfold aggNetsOf
  simp only [List.mem_filter, List.mem_dedup, List.mem_map]
  constructor
  · rintro ⟨⟨ip, hip, hn⟩, hlen⟩
    exact ⟨⟨ip, hip, hn⟩, by simpa using hlen⟩
  · rintro ⟨⟨ip, hip, hn⟩, hlen⟩
    exact ⟨⟨ip, hip, hn⟩, by simpa using hlen⟩

theorem mem_finalNetsOf (env : CompileEnv) (st : AggState) (n : Nat) :
    n ∈ finalNetsOf env st ↔
      n ∈ st.explicitNets ∨ n ∈ aggNetsOf env st := by
  unfold finalNetsOf
  simp [List.mem_dedup, List.mem_append]

theorem mem_remainingOf (env : CompileEnv) (st : AggState) (x : Nat) :
    x ∈ remainingOf env st ↔
      x ∈ st.allIps ∧ net24 x ∉ st.explicitNets ∧
        net24 x ∉ aggNetsOf env st := by
  unfold remainingOf
  simp [List.mem_filter, List.contains, List.elem_iff]

theorem mem_sortedNetsOf (env : CompileEnv) (st : AggState) (n : Nat) :
    n ∈ sortedNetsOf env st ↔ n ∈ finalNetsOf env st :=
  (List.perm_insertionSort _ _).mem_iff

theorem mem_sortedIpsOf (env : CompileEnv) (st : AggState) (x : Nat) :
    x ∈ sortedIpsOf env st ↔ x ∈ remainingOf env st :=
  (List.perm_insertionSort _ _).mem_iff

theorem nodup_finalNetsOf (env : CompileEnv) (st : AggState) :
    (finalNetsOf env st).Nodup := List.nodup_dedup _

theorem nodup_sortedNetsOf (env : CompileEnv) (st : AggState) :
    (sortedNetsOf env st).Nodup :=
  (List.perm_insertionSort _ _).nodup_iff.mpr (nodup_finalNetsOf env st)

theorem nodup_remainingOf (env : CompileEnv) (st : AggState)
    (h : st.allIps.Nodup) : (remainingOf env st).Nodup :=
  h.filter _

theorem nodup_sortedIpsOf (env : CompileEnv) (st : AggState)
    (h : st.allIps.Nodup) : (sortedIpsOf env st).Nodup :=
  (List.perm_insertionSort _ _).nodup_iff.mpr (nodup_remainingOf env st h)

/-- The claim-side distinct-survivor count agrees with the size of the
engine's `per_net24` group. -/
theorem survivors32_length (env : CompileEnv) (wl : List WlNet)
    (sids : List Int) (n : Nat) :
    (survivors32 env wl sids n).length =
      (membersOf (aggStateOf env wl sids) n).length := by
  have hperm : List.Perm (survivors32 env wl sids n)
      (membersOf (aggStateOf env wl sids) n) := by
    have h1 : (survivors32 env wl sids n).Nodup := by
      unfold survivors32
      exact List.nodup_dedup _
    have h2 : (membersOf (aggStateOf env wl sids) n).Nodup := by
      unfold membersOf
      exact (nodup_aggState_allIps env wl sids).filter _
    refine (List.perm_ext_iff_of_nodup h1 h2).mpr fun x => ?_
    rw [mem_survivors32, mem_membersOf, mem_aggState_allIps]
  exact hperm.length_eq

/-! ## Claim C1 -/

theorem contributes32_eq_true_iff (env : CompileEnv) (wl : List WlNet)
    (s : Source) (x : Nat) :
    contributes32 env wl s x = true ↔
      modeOf s ≠ "24" ∧ x ∈ extractOf env s ∧ wlHitB wl x = false := by
  unfold contributes32
  simp [List.contains, List.elem_iff, and_assoc]

theorem contributes24_eq_true_iff (env : CompileEnv) (wl : List WlNet)
    (s : Source) (n : Nat) :
    contributes24 env wl s n = true ↔
      modeOf s = "24" ∧
        ∃ ip ∈ extractOf env s, wlHitB wl ip = false ∧ net24 ip = n := by
  unfold contributes24
  simp only [List.any_eq_true, Bool.and_eq_true, decide_eq_true_eq,
    Bool.not_eq_true', beq_iff_eq]

/-- Claim C1: a /24 is in the final output network set iff either some
surviving address was contributed by an EXPLICIT24 ("24") source and maps
into it (no threshold test), or the number of distinct surviving addresses
inside that /24, counted across all AUTO32 sources of the scope together,
reaches the aggregation threshold. -/
theorem claim1_final_network_membership (env : CompileEnv) (wl : List WlNet)
    (sids : List Int) (n : Nat) (hthr : 0 < env.threshold) :
    n ∈ sortedNetsOf env (aggStateOf env wl sids) ↔
      (∃ s ∈ selectedSources env sids, modeOf s = "24" ∧
        ∃ ip ∈ extractOf env s, wlHitB wl ip = false ∧ net24 ip = n) ∨
      env.threshold ≤ (survivors32 env wl sids n).length := by
  rw [mem_sortedNetsOf, mem_finalNetsOf, mem_aggState_explicitNets,
    survivors32_length, mem_aggNetsOf]
  constructor
  · rintro (⟨s, hs, hc⟩ | ⟨_, hlen⟩)
    · rw [contributes24_eq_true_iff] at hc
      exact Or.inl ⟨s, hs, hc⟩
    · exact Or.inr hlen
  · rintro (⟨s, hs, hc⟩ | hlen)
    · exact Or.inl ⟨s, hs, (contributes24_eq_true_iff env wl s n).mpr hc⟩
    · refine Or.inr ⟨?_, hlen⟩
      have hpos : 0 < (membersOf (aggStateOf env wl sids) n).length :=
        lt_of_lt_of_le hthr hlen
      obtain ⟨x, hx⟩ := List.exists_mem_of_length_pos hpos
      rw [mem_membersOf] at hx
      exact ⟨x, hx.1, hx.2⟩

/-- Witness for C1 at the concrete fixture: threshold 2 is positive, and
the /24 of `1.1.1.1` is in the output because two distinct surviving
AUTO32 addresses fall inside it. -/
theorem claim1_witness :
    0 < wEnv.threshold ∧
      (16843008 ∈ sortedNetsOf wEnv (aggStateOf wEnv wWl [1, 2, 3]) ↔
        (∃ s ∈ selectedSources wEnv [1, 2, 3], modeOf s = "24" ∧
          ∃ ip ∈ extractOf wEnv s, wlHitB wWl ip = false ∧
            net24 ip = 16843008) ∨
        wEnv.threshold ≤ (survivors32 wEnv wWl [1, 2, 3] 16843008).length) :=
  ⟨by decide, claim1_final_network_membership wEnv wWl [1, 2, 3] 16843008
    (by decide)⟩

/-! ## Claim C2 -/

theorem contributesAny_eq_true_iff (env : CompileEnv) (wl : List WlNet)
    (s : Source) (x : Nat) :
    contributesAny env wl s x = true ↔
      x ∈ extractOf env s ∧ wlHitB wl x = false := by
  unfold contributesAny
  simp [List.contains, List.elem_iff]

/-- Claim C2: the output is a partition of the surviving addresses: every
address contributed by some selected source that survives whitelist
filtering is covered by exactly one emitted entry (an explicit or promoted
/24, or its own leftover /32); in particular a /24 present in both network
sets yields a single line and a leftover /32 appears only when its /24 is
in neither set. -/
theorem claim2_partition (env : CompileEnv) (wl : List WlNet)
    (sids : List Int) (a : Nat)
    (hsurv : ∃ s ∈ selectedSources env sids,
      contributesAny env wl s a = true) :
    (sortedNetsOf env (aggStateOf env wl sids)).count (net24 a) +
      (sortedIpsOf env (aggStateOf env wl sids)).count a = 1 := by
  obtain ⟨s, hs, hc⟩ := hsurv
  rw [contributesAny_eq_true_iff] at hc
  by_cases hin : net24 a ∈ finalNetsOf env (aggStateOf env wl sids)
  · have h1 : (sortedNetsOf env (aggStateOf env wl sids)).count (net24 a)
        = 1 :=
      List.count_eq_one_of_mem (nodup_sortedNetsOf env _)
        ((mem_sortedNetsOf env _ (net24 a)).mpr hin)
    have h2 : a ∉ sortedIpsOf env (aggStateOf env wl sids) := by
      rw [mem_sortedIpsOf, mem_remainingOf]
      rw [mem_finalNetsOf] at hin
      rintro ⟨_, hne, hna⟩
      rcases hin with h | h
      · exact hne h
      · exact hna h
    rw [h1, List.count_eq_zero.mpr h2]
  · have hmode : modeOf s ≠ "24" := by
      intro hm
      exact hin ((mem_finalNetsOf env _ (net24 a)).mpr (Or.inl
        ((mem_aggState_explicitNets env wl sids (net24 a)).mpr
          ⟨s, hs, (contributes24_eq_true_iff env wl s (net24 a)).mpr
            ⟨hm, a, hc.1, hc.2, rfl⟩⟩)))
    have hall : a ∈ (aggStateOf env wl sids).allIps :=
      (mem_aggState_allIps env wl sids a).mpr
        ⟨s, hs, (contributes32_eq_true_iff env wl s a).mpr
          ⟨hmode, hc.1, hc.2⟩⟩
    rw [mem_finalNetsOf] at hin
    push_neg at hin
    have h2 : a ∈ sortedIpsOf env (aggStateOf env wl sids) := by
      rw [mem_sortedIpsOf, mem_remainingOf]
      exact ⟨hall, hin.1, hin.2⟩
    have h1 : net24 a ∉ sortedNetsOf env (aggStateOf env wl sids) := by
      rw [mem_sortedNetsOf, mem_finalNetsOf]
      rintro (h | h)
      · exact hin.1 h
      · exact hin.2 h
    rw [List.count_eq_zero.mpr h1,
      List.count_eq_one_of_mem
        (nodup_sortedIpsOf env _ (nodup_aggState_allIps env wl sids)) h2]

/-- Witness for C2: the surviving address `2.2.2.2` of the fixture is
covered exactly once. -/
theorem claim2_witness :
    (∃ s ∈ selectedSources wEnv [1, 2, 3],
      contributesAny wEnv wWl s 33686018 = true) ∧
      (sortedNetsOf wEnv (aggStateOf wEnv wWl [1, 2, 3])).count
          (net24 33686018) +
        (sortedIpsOf wEnv (aggStateOf wEnv wWl [1, 2, 3])).count 33686018
          = 1 :=
  ⟨by decide, claim2_partition wEnv wWl [1, 2, 3] 33686018 (by decide)⟩

/-! ## Claim C3 -/

theorem wlHitB_eq_false_iff (wl : List WlNet) (x : Nat) :
    wlHitB wl x = false ↔ ∀ w ∈ wl, wlContainsB w x = false := by
  unfold wlHitB
  simp [List.any_eq_true]

/-- Claim C3: an address inside a configured whitelist network is
discarded: it never appears as a leftover /32, and every emitted /24
contains a surviving address outside that whitelist network (so no
network wholly covered by it is ever emitted), in either mode. -/
theorem claim3_whitelist_exclusion (env : CompileEnv) (wl : List WlNet)
    (sids : List Int) (W : WlNet) (A : Nat) (hW : W ∈ wl)
    (hA : wlContainsB W A = true) :
    A ∉ sortedIpsOf env (aggStateOf env wl sids) ∧
      ∀ n ∈ sortedNetsOf env (aggStateOf env wl sids),
        ∃ b, net24 b = n ∧ wlContainsB W b = false := by
  constructor
  · intro hmem
    rw [mem_sortedIpsOf, mem_remainingOf] at hmem
    obtain ⟨s, _, hc⟩ := (mem_aggState_allIps env wl sids A).mp hmem.1
    rw [contributes32_eq_true_iff] at hc
    have := (wlHitB_eq_false_iff wl A).mp hc.2.2 W hW
    rw [hA] at this
    cases this
  · intro n hn
    rw [mem_sortedNetsOf, mem_finalNetsOf] at hn
    rcases hn with hn | hn
    · obtain ⟨s, _, hc⟩ := (mem_aggState_explicitNets env wl sids n).mp hn
      rw [contributes24_eq_true_iff] at hc
      obtain ⟨_, ip, _, hw, hip⟩ := hc
      exact ⟨ip, hip, (wlHitB_eq_false_iff wl ip).mp hw W hW⟩
    · obtain ⟨⟨ip, hip, hn24⟩, _⟩ := (mem_aggNetsOf env _ n).mp hn
      obtain ⟨s, _, hc⟩ := (mem_aggState_allIps env wl sids ip).mp hip
      rw [contributes32_eq_true_iff] at hc
      exact ⟨ip, hn24, (wlHitB_eq_false_iff wl ip).mp hc.2.2 W hW⟩

/-- Witness for C3: `10.0.0.5` lies in the whitelisted `10.0.0.0/24` of
the fixture and is excluded from the output. -/
theorem claim3_witness :
    (⟨167772160, 24⟩ : WlNet) ∈ wWl ∧
      wlContainsB ⟨167772160, 24⟩ 167772165 = true ∧
      (167772165 ∉ sortedIpsOf wEnv (aggStateOf wEnv wWl [1, 2, 3]) ∧
        ∀ n ∈ sortedNetsOf wEnv (aggStateOf wEnv wWl [1, 2, 3]),
          ∃ b, net24 b = n ∧ wlContainsB ⟨167772160, 24⟩ b = false) :=
  ⟨by decide, by decide,
    claim3_whitelist_exclusion wEnv wWl [1, 2, 3] ⟨167772160, 24⟩ 167772165
      (by decide) (by decide)⟩

/-! ## Claim C6 -/

theorem lookup_map_pair (l : List Nat) (f : Nat → String) (x : Nat)
    (hx : x ∈ l) : (l.map fun n => (n, f n)).lookup x = some (f x) := by
  induction l with
  | nil => cases hx
  | cons n0 t ih =>
    rcases List.mem_cons.mp hx with rfl | hx
    · simp [List.lookup_cons]
    · by_cases he : x = n0
      · subst he
        simp [List.lookup_cons]
      · have hbe : (x == n0) = false := beq_eq_false_iff_ne.mpr he
        simp [List.lookup_cons, hbe, ih hx]

/-- Claim C6: comment attribution is first-seen-wins in source order: a
leftover /32 carries the comment of the first selected source that
contributed that address; a promoted /24 carries the first-seen comment of
its representative member; an explicit /24 carries the comment of the
first source that contributed it.  Later sources contributing the same
address or /24 never overwrite the recorded comment. -/
theorem claim6_comment_first_seen (env : CompileEnv) (wl : List WlNet)
    (sids : List Int)
    (hpick : ∀ l : List Nat, l ≠ [] → env.pick l ∈ l) :
    (∀ ip ∈ sortedIpsOf env (aggStateOf env wl sids),
      ∃ s, (selectedSources env sids).find?
          (fun s => contributes32 env wl s ip) = some s ∧
        ipLineCommentOf (aggStateOf env wl sids) ip = sourceComment s) ∧
    (∀ n ∈ aggNetsOf env (aggStateOf env wl sids),
      ∃ s, (selectedSources env sids).find?
          (fun s => contributes32 env wl s
            (env.pick (membersOf (aggStateOf env wl sids) n))) = some s ∧
        (aggCommentOf env (aggStateOf env wl sids)).lookup n =
          some (sourceComment s)) ∧
    (∀ n ∈ (aggStateOf env wl sids).explicitNets,
      ∃ s, (selectedSources env sids).find?
          (fun s => contributes24 env wl s n) = some s ∧
        (aggStateOf env wl sids).explicitComment.lookup n =
          some (sourceComment s)) := by
  refine ⟨?_, ?_, ?_⟩
  · intro ip hip
    rw [mem_sortedIpsOf, mem_remainingOf] at hip
    obtain ⟨s0, hs0, hc0⟩ := (mem_aggState_allIps env wl sids ip).mp hip.1
    have hsome : ((selectedSources env sids).find?
        (fun s => contributes32 env wl s ip)).isSome :=
      List.find?_isSome.mpr ⟨s0, hs0, hc0⟩
    obtain ⟨s, hs⟩ := Option.isSome_iff_exists.mp hsome
    refine ⟨s, hs, ?_⟩
    unfold ipLineCommentOf
    rw [lookup_aggState_ipComment, hs]
    rfl
  · intro n hn
    have hmem : ∃ ip ∈ (aggStateOf env wl sids).allIps, net24 ip = n :=
      ((mem_aggNetsOf env _ n).mp hn).1
    obtain ⟨ip0, hip0, hn0⟩ := hmem
    have hne : membersOf (aggStateOf env wl sids) n ≠ [] :=
      List.ne_nil_of_mem ((mem_membersOf _ n ip0).mpr ⟨hip0, hn0⟩)
    have hrep : env.pick (membersOf (aggStateOf env wl sids) n) ∈
        membersOf (aggStateOf env wl sids) n := hpick _ hne
    rw [mem_membersOf] at hrep
    obtain ⟨s0, hs0, hc0⟩ :=
      (mem_aggState_allIps env wl sids _).mp hrep.1
    have hsome : ((selectedSources env sids).find?
        (fun s => contributes32 env wl s
          (env.pick (membersOf (aggStateOf env wl sids) n)))).isSome :=
      List.find?_isSome.mpr ⟨s0, hs0, hc0⟩
    obtain ⟨s, hs⟩ := Option.isSome_iff_exists.mp hsome
    refine ⟨s, hs, ?_⟩
    unfold aggCommentOf
    rw [lookup_map_pair _ _ _ hn, lookup_aggState_ipComment, hs]
    rfl
  · intro n hn
    obtain ⟨s0, hs0, hc0⟩ :=
      (mem_aggState_explicitNets env wl sids n).mp hn
    have hsome : ((selectedSources env sids).find?
        (fun s => contributes24 env wl s n)).isSome :=
      List.find?_isSome.mpr ⟨s0, hs0, hc0⟩
    obtain ⟨s, hs⟩ := Option.isSome_iff_exists.mp hsome
    refine ⟨s, hs, ?_⟩
    rw [lookup_aggState_explicitComment, hs]
    rfl

/-- Witness for C6 at the concrete fixture, with the representative
choice taking the head of the group. -/
theorem claim6_witness :
    (∀ l : List Nat, l ≠ [] → wEnv.pick l ∈ l) ∧
      (∀ ip ∈ sortedIpsOf wEnv (aggStateOf wEnv wWl [1, 2, 3]),
        ∃ s, (selectedSources wEnv [1, 2, 3]).find?
            (fun s => contributes32 wEnv wWl s ip) = some s ∧
          ipLineCommentOf (aggStateOf wEnv wWl [1, 2, 3]) ip =
            sourceComment s) := by
  have hpick : ∀ l : List Nat, l ≠ [] → wEnv.pick l ∈ l := by
    intro l hl
    cases l with
    | nil => exact (hl rfl).elim
    | cons a t => exact List.mem_cons_self a t
  exact ⟨hpick,
    (claim6_comment_first_seen wEnv wWl [1, 2, 3] hpick).1⟩

/-! ## Claim C8 -/

theorem selectedSources_filter_known (env : CompileEnv) (sids : List Int) :
    selectedSources env (sids.filter fun j => (srcById env j).isSome) =
      selectedSources env sids := by
  unfold selectedSources
  induction sids with
  | nil => rfl
  | cons j t ih =>
    by_cases h : (srcById env j).isSome
    · obtain ⟨s, hs⟩ := Option.isSome_iff_exists.mp h
      simp [List.filter_cons, List.filterMap_cons, hs, ih]
    · have hnone : srcById env j = none := Option.not_isSome_iff_eq_none.mp h
      simp [List.filter_cons, List.filterMap_cons, hnone, ih]

/-- Counterexample to C8 as stated: the request `[1, 999]` contains the
unknown source id 999 (no registry source has it), yet the compilation is
not rejected — it succeeds, silently ignoring the unknown id. -/
theorem claim8_counterexample :
    (∀ s ∈ wEnv.registry, s.id ≠ 999) ∧
      (compile_custom_blocklist wEnv "bl" "02:00:00" [1, 999] wWl).isOk
        = true := by
  constructor
  · decide
  · decide

/-- Claim C8 (amended): a compilation request is rejected at the boundary
iff the source selection is empty or resolves to no known source id; a
request containing unknown ids alongside at least one known id proceeds,
with the unknown ids silently ignored. -/
theorem claim8_validation (env : CompileEnv) (ln tmo : String)
    (sids : List Int) (wl : List WlNet) :
    ((compile_custom_blocklist env ln tmo sids wl).isOk = true ↔
      sids ≠ [] ∧ ∃ j ∈ sids, (srcById env j).isSome) ∧
    ((∃ j ∈ sids, (srcById env j).isSome) →
      compile_custom_blocklist env ln tmo sids wl =
        compile_custom_blocklist env ln tmo
          (sids.filter fun j => (srcById env j).isSome) wl) := by
  have hsel : (selectedSources env sids) = [] ↔
      ¬∃ j ∈ sids, (srcById env j).isSome := by
    unfold selectedSources
    rw [List.filterMap_eq_nil]
    constructor
    · rintro h ⟨j, hj, hs⟩
      obtain ⟨s, hs'⟩ := Option.isSome_iff_exists.mp hs
      rw [h j hj] at hs'
      cases hs'
    · intro h j hj
      by_cases hs : (srcById env j).isSome
      · exact (h ⟨j, hj, hs⟩).elim
      · exact Option.not_isSome_iff_eq_none.mp hs
  constructor
  · unfold compile_custom_blocklist
    by_cases h0 : sids = []
    · subst h0
      simp [Except.isOk, Except.toBool]
    · rw [if_neg (by rw [List.isEmpty_iff]; exact h0)]
      by_cases h1 : selectedSources env sids = []
      · rw [if_pos (by rw [List.isEmpty_iff]; exact h1)]
        exact iff_of_false (by simp [Except.isOk, Except.toBool])
          fun h => hsel.mp h1 h.2
      · rw [if_neg (by rw [List.isEmpty_iff]; exact h1)]
        exact iff_of_true (by simp [Except.isOk, Except.toBool])
          ⟨h0, not_not.mp fun hex => h1 (hsel.mpr hex)⟩
  · intro hex
    have hne : sids ≠ [] := by
      rintro rfl
      obtain ⟨j, hj, _⟩ := hex
      cases hj
    have hfilterne : (sids.filter fun j => (srcById env j).isSome) ≠ [] := by
      obtain ⟨j, hj, hs⟩ := hex
      exact List.ne_nil_of_mem (List.mem_filter.mpr ⟨hj, hs⟩)
    have hselne : (selectedSources env sids) ≠ [] := fun h =>
      (hsel.mp h) hex
    unfold compile_custom_blocklist
    rw [if_neg (by rw [List.isEmpty_iff]; exact hne),
      if_neg (by rw [List.isEmpty_iff]; exact hselne),
      if_neg (by rw [List.isEmpty_iff]; exact hfilterne),
      if_neg (by
        rw [List.isEmpty_iff, selectedSources_filter_known]
        exact hselne)]
    unfold scriptOf linesOf aggStateOf
    rw [selectedSources_filter_known]

/-! ## Claim C9 -/

theorem processSource_empty_fetch (st : AggState) (s : Source)
    (h : env.fetchText s.url = "") : processSource wl env st s = st := by
  unfold processSource
  rw [if_pos h]

theorem foldl_processSource_skip (env : CompileEnv) (wl : List WlNet)
    (k : Int)
    (hempty : ∀ s, srcById env k = some s → env.fetchText s.url = "") :
    ∀ (sids : List Int) (st : AggState),
      (selectedSources env (sids.filter fun j => decide (j ≠ k))).foldl
          (processSource wl env) st =
        (selectedSources env sids).foldl (processSource wl env) st := by
  intro sids
  induction sids with
  | nil => intro st; rfl
  | cons j t ih =>
    intro st
    by_cases hj : j = k
    · subst hj
      have hd : decide (j ≠ j) = false := by simp
      rw [List.filter_cons, hd]
      simp only [Bool.false_eq_true, if_false]
      unfold selectedSources
      rw [List.filterMap_cons]
      cases hs : srcById env j with
      | none => exact ih st
      | some s =>
        rw [List.foldl_cons, processSource_empty_fetch _ _ (hempty s hs)]
        exact ih st
    · have hd : decide (j ≠ k) = true := by simp [hj]
      rw [List.filter_cons, hd]
      simp only [if_true]
      unfold selectedSources
      rw [List.filterMap_cons, List.filterMap_cons]
      cases hs : srcById env j with
      | none => exact ih st
      | some s =>
        rw [List.foldl_cons, List.foldl_cons]
        exact ih (processSource wl env st s)

/-- Claim C9: a source whose fetch yields empty text contributes no
addresses and no networks: the aggregation state and the compiled script
over a scope containing it are identical to those of the scope with that
source id removed (provided another known source id remains selected).
The fetch effect itself is a parameter of the environment; in the program
`fetch_list` returns empty text instead of raising on any failure. -/
theorem claim9_empty_source_skipped (env : CompileEnv) (wl : List WlNet)
    (ln tmo : String) (sids : List Int) (k : Int)
    (hempty : ∀ s, srcById env k = some s → env.fetchText s.url = "")
    (hother : ∃ j ∈ sids, j ≠ k ∧ (srcById env j).isSome) :
    aggStateOf env wl (sids.filter fun j => decide (j ≠ k)) =
        aggStateOf env wl sids ∧
      compile_custom_blocklist env ln tmo
          (sids.filter fun j => decide (j ≠ k)) wl =
        compile_custom_blocklist env ln tmo sids wl := by
  have hagg : aggStateOf env wl (sids.filter fun j => decide (j ≠ k)) =
      aggStateOf env wl sids :=
    foldl_processSource_skip env wl k hempty sids AggState.init
  refine ⟨hagg, ?_⟩
  obtain ⟨j, hj, hjk, hjs⟩ := hother
  obtain ⟨s, hs⟩ := Option.isSome_iff_exists.mp hjs
  have hne : sids ≠ [] := List.ne_nil_of_mem hj
  have hfne : (sids.filter fun j => decide (j ≠ k)) ≠ [] :=
    List.ne_nil_of_mem (List.mem_filter.mpr ⟨hj, by simp [hjk]⟩)
  have hselne : selectedSources env sids ≠ [] :=
    List.ne_nil_of_mem (List.mem_filterMap.mpr ⟨j, hj, hs⟩)
  have hfselne : selectedSources env
      (sids.filter fun j => decide (j ≠ k)) ≠ [] :=
    List.ne_nil_of_mem (List.mem_filterMap.mpr
      ⟨j, List.mem_filter.mpr ⟨hj, by simp [hjk]⟩, hs⟩)
  unfold compile_custom_blocklist
  rw [if_neg (by rw [List.isEmpty_iff]; exact hfne),
    if_neg (by rw [List.isEmpty_iff]; exact hfselne),
    if_neg (by rw [List.isEmpty_iff]; exact hne),
    if_neg (by rw [List.isEmpty_iff]; exact hselne)]
  unfold scriptOf linesOf
  rw [hagg]

/-- Witness for C9: in the fixture, source 3 is unreachable (empty fetch)
and dropping it from the scope leaves the compilation unchanged. -/
theorem claim9_witness :
    (∀ s, srcById wEnv 3 = some s → wEnv.fetchText s.url = "") ∧
      (∃ j ∈ [1, 2, 3], j ≠ 3 ∧ (srcById wEnv j).isSome) ∧
      compile_custom_blocklist wEnv "bl" "02:00:00"
          (([1, 2, 3] : List Int).filter fun j => decide (j ≠ 3)) wWl =
        compile_custom_blocklist wEnv "bl" "02:00:00" [1, 2, 3] wWl := by
  have h1 : ∀ s, srcById wEnv 3 = some s → wEnv.fetchText s.url = "" := by
    intro s hs
    have : wSrcC = s := by
      have := hs
      rw [show srcById wEnv 3 = some wSrcC by decide] at this
      exact Option.some.inj this
    subst this
    decide
  have h2 : ∃ j ∈ ([1, 2, 3] : List Int), j ≠ 3 ∧
      (srcById wEnv j).isSome := by decide
  exact ⟨h1, h2,
    (claim9_empty_source_skipped wEnv wWl "bl" "02:00:00" [1, 2, 3] 3
      h1 h2).2⟩

/-! ## Claim C5 -/

/-- Claim C5: for every scope key, the cached script is returned unchanged
exactly when an entry is stored under the current key (which embeds the
whitelist fingerprint, so a stored fingerprint matching the current one)
and `now - computedAt <= TTL`; otherwise (no entry under the key, i.e.
fingerprint changed, or TTL elapsed) the request recomputes through the
aggregation-and-render pipeline, stores the fresh script and returns it.
A changed whitelist fingerprint always changes the key. -/
theorem claim5_cache (env : CompileEnv) (cache : Cache) (now ttl : Int)
    (ln tmo : String) (sids : List Int) (wl : List WlNet) :
    (∀ ts data,
      cacheLookup cache (cacheKey ln tmo sids wl) = some (ts, data) →
      now - ts ≤ ttl →
      get_custom_script_cached env cache now ttl ln tmo sids wl =
        .ok (data, cache)) ∧
    ((cacheLookup cache (cacheKey ln tmo sids wl) = none ∨
      ∃ ts data,
        cacheLookup cache (cacheKey ln tmo sids wl) = some (ts, data) ∧
          ttl < now - ts) →
      get_custom_script_cached env cache now ttl ln tmo sids wl =
        (compile_custom_blocklist env ln tmo sids wl).map fun s =>
          (s, cacheInsert cache (cacheKey ln tmo sids wl) (now, s))) ∧
    (∀ wl' : List WlNet, wlFingerprint wl' ≠ wlFingerprint wl →
      cacheKey ln tmo sids wl' ≠ cacheKey ln tmo sids wl) := by
  refine ⟨?_, ?_, ?_⟩
  · intro ts data hfound httl
    unfold get_custom_script_cached
    rw [hfound]
    simp only [httl, if_true]
  · rintro (hnone | ⟨ts, data, hfound, httl⟩)
    · unfold get_custom_script_cached
      rw [hnone]
    · unfold get_custom_script_cached
      rw [hfound]
      have hlt : ¬(now - ts ≤ ttl) := not_le.mpr httl
      simp only [hlt, if_false]
  · intro wl' hfp hkey
    unfold cacheKey at hkey
    exact hfp (congrArg (fun k => k.2.2.2) hkey)

/-- Witness for C5: a fresh entry stored at time 50 is returned unchanged
at time 100 with TTL 600. -/
theorem claim5_witness :
    cacheLookup [(cacheKey "bl" "02:00:00" [1] wWl, (50, "cached"))]
        (cacheKey "bl" "02:00:00" [1] wWl) = some (50, "cached") ∧
      (100 : Int) - 50 ≤ 600 ∧
      get_custom_script_cached wEnv
          [(cacheKey "bl" "02:00:00" [1] wWl, (50, "cached"))]
          100 600 "bl" "02:00:00" [1] wWl =
        .ok ("cached",
          [(cacheKey "bl" "02:00:00" [1] wWl, (50, "cached"))]) :=
  ⟨by decide, by decide,
    (claim5_cache wEnv
        [(cacheKey "bl" "02:00:00" [1] wWl, (50, "cached"))]
        100 600 "bl" "02:00:00" [1] wWl).1 50 "cached"
      (by decide) (by decide)⟩

/-! ## Claim C4 -/

theorem specJoin_append (l1 l2 : List String) :
    specJoin (l1 ++ l2) = specJoin l1 ++ specJoin l2 := by
  induction l1 with
  | nil => simp [specJoin]
  | cons x t ih => simp [specJoin, ih, String.append_assoc]

theorem intercalate_go_eq (l : List String) (acc : String) :
    String.intercalate.go acc "\n" l =
      acc ++ specJoin (l.map fun x => "\n" ++ x) := by
  induction l generalizing acc with
  | nil => simp [String.intercalate.go, specJoin]
  | cons x t ih =>
    rw [String.intercalate.go, ih]
    simp [specJoin, String.append_assoc]

theorem intercalate_eq_specJoin (x : String) (l : List String) :
    String.intercalate "\n" (x :: l) =
      x ++ specJoin (l.map fun y => "\n" ++ y) := by
  rw [String.intercalate, intercalate_go_eq]

/-- Claim C4: a successful compilation renders exactly the context line,
the remove line, one add line per final /24 sorted by (network address,
prefix length) ascending (every network is a /24, so the second component
is constant), then one add line per leftover /32 sorted by integer value
ascending, each carrying list name, address/CIDR, quoted comment and
timeout, with a trailing newline. -/
theorem claim4_render (env : CompileEnv) (wl : List WlNet)
    (ln tmo : String) (sids : List Int) (out : String)
    (hok : compile_custom_blocklist env ln tmo sids wl = .ok out) :
    ∃ nets ips : List Nat,
      List.Perm nets (finalNetsOf env (aggStateOf env wl sids)) ∧
      nets.Sorted (· ≤ ·) ∧
      List.Perm ips (remainingOf env (aggStateOf env wl sids)) ∧
      ips.Sorted (· ≤ ·) ∧
      out = specRender ln tmo
        (nets.map fun n => (n, netCommentOf env (aggStateOf env wl sids) n))
        (ips.map fun ip => (ip, ipLineCommentOf (aggStateOf env wl sids) ip))
        := by
  refine ⟨sortedNetsOf env (aggStateOf env wl sids),
    sortedIpsOf env (aggStateOf env wl sids),
    List.perm_insertionSort _ _, List.sorted_insertionSort _ _,
    List.perm_insertionSort _ _, List.sorted_insertionSort _ _, ?_⟩
  have hout : out = scriptOf env wl ln tmo sids := by
    unfold compile_custom_blocklist at hok
    by_cases h0 : sids.isEmpty
    · rw [if_pos h0] at hok
      cases hok
    · rw [if_neg h0] at hok
      by_cases h1 : (selectedSources env sids).isEmpty
      · rw [if_pos h1] at hok
        cases hok
      · rw [if_neg h1] at hok
        exact (Except.ok.inj hok).symm
  subst hout
  unfold scriptOf linesOf specRender
  rw [show ∀ a b : String, ∀ l1 l2 : List String,
      ([a, b] ++ l1 ++ l2) = a :: (b :: (l1 ++ l2)) by intros; rfl]
  rw [intercalate_eq_specJoin]
  simp [List.map_cons, List.map_append, List.map_map, specJoin,
    specJoin_append, String.append_assoc, Function.comp_def]
  rw [← String.append_assoc "/ip firewall address-list" "\n"]
  rfl

/-- Witness for C4 at the concrete fixture. -/
theorem claim4_witness :
    compile_custom_blocklist wEnv "bl" "02:00:00" [1, 2, 3] wWl =
        .ok (scriptOf wEnv wWl "bl" "02:00:00" [1, 2, 3]) ∧
      ∃ nets ips : List Nat,
        List.Perm nets
          (finalNetsOf wEnv (aggStateOf wEnv wWl [1, 2, 3])) ∧
        nets.Sorted (· ≤ ·) ∧
        List.Perm ips (remainingOf wEnv (aggStateOf wEnv wWl [1, 2, 3])) ∧
        ips.Sorted (· ≤ ·) ∧
        scriptOf wEnv wWl "bl" "02:00:00" [1, 2, 3] = specRender "bl"
          "02:00:00"
          (nets.map fun n =>
            (n, netCommentOf wEnv (aggStateOf wEnv wWl [1, 2, 3]) n))
          (ips.map fun ip =>
            (ip, ipLineCommentOf (aggStateOf wEnv wWl [1, 2, 3]) ip)) :=
  ⟨by rfl,
    claim4_render wEnv wWl "bl" "02:00:00" [1, 2, 3] _ (by rfl)⟩

/-! ## Timeout parser correctness (shared by C7 and C10) -/

theorem takeWhile_all {p : Char → Bool} {l : List Char}
    (h : ∀ c ∈ l, p c = true) : l.takeWhile p = l := by
  induction l with
  | nil => rfl
  | cons a t ih =>
    rw [List.takeWhile_cons, h a (List.mem_cons_self a t)]
    simp [ih fun c hc => h c (List.mem_cons_of_mem a hc)]

theorem dropWhile_all {p : Char → Bool} {l : List Char}
    (h : ∀ c ∈ l, p c = true) : l.dropWhile p = [] := by
  induction l with
  | nil => rfl
  | cons a t ih =>
    rw [List.dropWhile_cons, h a (List.mem_cons_self a t)]
    simp [ih fun c hc => h c (List.mem_cons_of_mem a hc)]

theorem takeWhile_break {p : Char → Bool} (l1 : List Char) {c0 : Char}
    {l2 : List Char} (h1 : ∀ c ∈ l1, p c = true) (hc : p c0 = false) :
    (l1 ++ c0 :: l2).takeWhile p = l1 := by
  induction l1 with
  | nil => simp [List.takeWhile_cons, hc]
  | cons a t ih =>
    rw [List.cons_append, List.takeWhile_cons,
      h1 a (List.mem_cons_self a t)]
    simp [ih fun c hcm => h1 c (List.mem_cons_of_mem a hcm)]

theorem dropWhile_break {p : Char → Bool} (l1 : List Char) {c0 : Char}
    {l2 : List Char} (h1 : ∀ c ∈ l1, p c = true) (hc : p c0 = false) :
    (l1 ++ c0 :: l2).dropWhile p = c0 :: l2 := by
  induction l1 with
  | nil => simp [List.dropWhile_cons, hc]
  | cons a t ih =>
    rw [List.cons_append, List.dropWhile_cons,
      h1 a (List.mem_cons_self a t)]
    simp [ih fun c hcm => h1 c (List.mem_cons_of_mem a hcm)]

theorem matchHMS_some_iff (cs : List Char) (v : Nat × Nat × Nat) :
    matchHMS cs = some v ↔
      ∃ h m s : List Char,
        cs = h ++ ':' :: (m ++ ':' :: s) ∧
        h ≠ [] ∧ h.length ≤ 2 ∧ (∀ c ∈ h, c.isDigit = true) ∧
        m.length = 2 ∧ (∀ c ∈ m, c.isDigit = true) ∧
        s.length = 2 ∧ (∀ c ∈ s, c.isDigit = true) ∧
        v = (digitsToNat h, digitsToNat m, digitsToNat s) := by
  constructor
  · intro hv
    simp only [matchHMS] at hv
    split at hv
    · cases hv
    · rename_i hlen
      split at hv
      · rename_i r2 heq2
        split at hv
        · cases hv
        · rename_i hm2
          split at hv
          · rename_i r4 heq4
            split at hv
            · rename_i hs2
              rw [Bool.and_eq_true] at hs2
              refine ⟨cs.takeWhile Char.isDigit, r2.takeWhile Char.isDigit,
                r4, ?_, ?_, ?_, ?_, ?_, ?_, ?_, ?_, ?_⟩
              · conv_lhs => rw [← List.takeWhile_append_dropWhile
                  (p := Char.isDigit) (l := cs)]
                rw [heq2]
                congr 1
                conv_lhs => rw [← List.takeWhile_append_dropWhile
                  (p := Char.isDigit) (l := r2)]
                rw [heq4]
              · intro hnil
                rw [hnil] at hlen
                simp at hlen
              · simp only [Bool.or_eq_true, decide_eq_true_eq, not_or]
                  at hlen
                omega
              · intro c hc
                exact List.mem_takeWhile_imp hc
              · simpa using hm2
              · intro c hc
                exact List.mem_takeWhile_imp hc
              · have h5 : r4.dropWhile Char.isDigit = [] := by
                  simpa using hs2.2
                have : r4.takeWhile Char.isDigit = r4 := by
                  conv_rhs => rw [← List.takeWhile_append_dropWhile
                    (p := Char.isDigit) (l := r4), h5, List.append_nil]
                rw [← this]
                simpa using hs2.1
              · intro c hc
                have h5 : r4.dropWhile Char.isDigit = [] := by
                  simpa using hs2.2
                have heqr4 : r4.takeWhile Char.isDigit = r4 := by
                  conv_rhs => rw [← List.takeWhile_append_dropWhile
                    (p := Char.isDigit) (l := r4), h5, List.append_nil]
                rw [← heqr4] at hc
                exact List.mem_takeWhile_imp hc
              · have h5 : r4.dropWhile Char.isDigit = [] := by
                  simpa using hs2.2
                have heqr4 : r4.takeWhile Char.isDigit = r4 := by
                  conv_rhs => rw [← List.takeWhile_append_dropWhile
                    (p := Char.isDigit) (l := r4), h5, List.append_nil]
                rw [← heqr4]
                exact (Option.some.inj hv).symm
            · cases hv
          · cases hv
      · cases hv
  · rintro ⟨h, m, s, rfl, hne, hlen, hdig, hm2, hmdig, hs2, hsdig, rfl⟩
    have hcolon : (':' : Char).isDigit = false := by decide
    have ht : ((h ++ ':' :: (m ++ ':' :: s)).takeWhile Char.isDigit) = h :=
      takeWhile_break h hdig hcolon
    have hd : ((h ++ ':' :: (m ++ ':' :: s)).dropWhile Char.isDigit) =
        ':' :: (m ++ ':' :: s) := dropWhile_break h hdig hcolon
    have htm : ((m ++ ':' :: s).takeWhile Char.isDigit) = m :=
      takeWhile_break m hmdig hcolon
    have hdm : ((m ++ ':' :: s).dropWhile Char.isDigit) = ':' :: s :=
      dropWhile_break m hmdig hcolon
    have hts : s.takeWhile Char.isDigit = s := takeWhile_all hsdig
    have hds : s.dropWhile Char.isDigit = [] := dropWhile_all hsdig
    have hlen1 : 1 ≤ h.length := by
      cases h with
      | nil => exact (hne rfl).elim
      | cons a t => simp
    have hcond : ¬(h.length < 1 ∨ 2 < h.length) := by omega
    simp only [matchHMS, ht, hd, htm, hdm, hts, hds]
    rw [if_neg (by simpa using hcond)]
    rw [if_neg (by simp [hm2])]
    rw [if_pos (by simp [hs2])]

theorem pySpace_eq_false_of_isDigit {c : Char} (h : c.isDigit = true) :
    pySpace c = false := by
  by_contra hx
  rw [Bool.not_eq_false] at hx
  unfold pySpace at hx
  simp only [Bool.or_eq_true, beq_iff_eq] at hx
  rcases hx with ((((h1 | h1) | h1) | h1) | h1) | h1 <;> subst h1 <;>
    exact absurd h (by decide)

theorem matchDHMS_some_iff (cs : List Char) (v : Nat × Nat × Nat × Nat) :
    matchDHMS cs = some v ↔
      ∃ (d sp rest : List Char) (hv : Nat × Nat × Nat),
        cs = d ++ 'd' :: (sp ++ rest) ∧
        d ≠ [] ∧ (∀ c ∈ d, c.isDigit = true) ∧
        (∀ c ∈ sp, pySpace c = true) ∧
        matchHMS rest = some hv ∧
        v = (digitsToNat d, hv) := by
  constructor
  · intro hv
    simp only [matchDHMS] at hv
    split at hv
    · cases hv
    · rename_i hdne
      split at hv
      · rename_i r2 heq2
        rw [Option.map_eq_some'] at hv
        obtain ⟨hmsv, hhms, hveq⟩ := hv
        refine ⟨cs.takeWhile Char.isDigit, r2.takeWhile pySpace,
          r2.dropWhile pySpace, hmsv, ?_, ?_, ?_, ?_, hhms, hveq.symm⟩
        · conv_lhs => rw [← List.takeWhile_append_dropWhile
            (p := Char.isDigit) (l := cs)]
          rw [heq2]
          congr 1
          rw [List.takeWhile_append_dropWhile]
        · intro hnil
          rw [hnil] at hdne
          simp at hdne
        · intro ch hc
          exact List.mem_takeWhile_imp hc
        · intro ch hc
          exact List.mem_takeWhile_imp hc
      · cases hv
  · rintro ⟨d, sp, rest, hmsv, rfl, hdne, hddig, hspsp, hhms, rfl⟩
    have hdchar : ('d' : Char).isDigit = false := by decide
    have ht : ((d ++ 'd' :: (sp ++ rest)).takeWhile Char.isDigit) = d :=
      takeWhile_break d hddig hdchar
    have hd : ((d ++ 'd' :: (sp ++ rest)).dropWhile Char.isDigit) =
        'd' :: (sp ++ rest) := dropWhile_break d hddig hdchar
    obtain ⟨hh, hm, hs, hrest, hhne, _, hhdig, _⟩ :=
      (matchHMS_some_iff rest hmsv).mp hhms
    have hdropsp : ((sp ++ rest).dropWhile pySpace) = rest := by
      cases hh with
      | nil => exact (hhne rfl).elim
      | cons c0 ht0 =>
        rw [hrest]
        rw [List.cons_append]
        exact dropWhile_break sp hspsp
          (pySpace_eq_false_of_isDigit
            (hhdig c0 (List.mem_cons_self c0 ht0)))
    have hdnem : ¬(d.isEmpty = true) := by
      cases d with
      | nil => exact (hdne rfl).elim
      | cons a t => simp
    simp only [matchDHMS, ht, hd, hdropsp]
    rw [if_neg hdnem, hhms]
    rfl

theorem matchDHMS_eq_none_of_formHMS (cs : List Char) (t : Nat)
    (hform : TimeoutFormHMS cs t) : matchDHMS cs = none := by
  obtain ⟨h, m, s, rfl, hne, hlen, hdig, _⟩ := hform
  have hcolon : (':' : Char).isDigit = false := by decide
  have ht : ((h ++ ':' :: (m ++ ':' :: s)).takeWhile Char.isDigit) = h :=
    takeWhile_break h hdig hcolon
  have hd : ((h ++ ':' :: (m ++ ':' :: s)).dropWhile Char.isDigit) =
      ':' :: (m ++ ':' :: s) := dropWhile_break h hdig hcolon
  simp only [matchDHMS, ht, hd]
  split
  · rfl
  · split
    · rename_i heq
      injection heq with h1 _
      exact absurd h1 (by decide)
    · rfl

theorem form_of_matchTimeout (cs : List Char) (v : Nat × Nat × Nat × Nat)
    (h : matchTimeout cs = some v) : TimeoutForm cs (totalOf v) := by
  unfold matchTimeout at h
  cases hD : matchDHMS cs with
  | some w =>
    rw [hD] at h
    obtain ⟨d, sp, rest, hv, hcseq, hdne, hddig, hsp, hhms, hveq⟩ :=
      (matchDHMS_some_iff cs w).mp hD
    obtain ⟨hh, hm, hs, hresteq, hhne, hhlen, hhdig, hm2, hmdig, hs2,
      hsdig, hveq2⟩ := (matchHMS_some_iff rest hv).mp hhms
    refine Or.inr ⟨d, sp, rest,
      digitsToNat hh * 3600 + digitsToNat hm * 60 + digitsToNat hs,
      hcseq, hdne, hddig, hsp,
      ⟨hh, hm, hs, hresteq, hhne, hhlen, hhdig, hm2, hmdig, hs2, hsdig,
        rfl⟩, ?_⟩
    cases h
    rw [hveq, hveq2]
    simp only [totalOf]
    omega
  | none =>
    rw [hD] at h
    rw [Option.map_eq_some'] at h
    obtain ⟨hv, hhms, hveq⟩ := h
    obtain ⟨hh, hm, hs, hcseq, hhne, hhlen, hhdig, hm2, hmdig, hs2,
      hsdig, hveq2⟩ := (matchHMS_some_iff cs hv).mp hhms
    refine Or.inl ⟨hh, hm, hs, hcseq, hhne, hhlen, hhdig, hm2, hmdig,
      hs2, hsdig, ?_⟩
    rw [← hveq, hveq2]
    simp only [totalOf]
    omega

theorem matchTimeout_of_form (cs : List Char) (t : Nat)
    (hform : TimeoutForm cs t) :
    ∃ v, matchTimeout cs = some v ∧ t = totalOf v := by
  rcases hform with hform | hform
  · have hD := matchDHMS_eq_none_of_formHMS cs t hform
    obtain ⟨hh, hm, hs, hcseq, hhne, hhlen, hhdig, hm2, hmdig, hs2,
      hsdig, hteq⟩ := hform
    have hH : matchHMS cs =
        some (digitsToNat hh, digitsToNat hm, digitsToNat hs) :=
      (matchHMS_some_iff cs _).mpr
        ⟨hh, hm, hs, hcseq, hhne, hhlen, hhdig, hm2, hmdig, hs2, hsdig,
          rfl⟩
    refine ⟨(0, digitsToNat hh, digitsToNat hm, digitsToNat hs), ?_, ?_⟩
    · unfold matchTimeout
      rw [hD, hH]
      rfl
    · simp only [totalOf]
      omega
  · obtain ⟨d, sp, rest, hms, hcseq, hdne, hddig, hsp, hhmsform, hteq⟩ :=
      hform
    obtain ⟨hh, hm, hs, hresteq, hhne, hhlen, hhdig, hm2, hmdig, hs2,
      hsdig, hteq2⟩ := hhmsform
    have hH : matchHMS rest =
        some (digitsToNat hh, digitsToNat hm, digitsToNat hs) :=
      (matchHMS_some_iff rest _).mpr
        ⟨hh, hm, hs, hresteq, hhne, hhlen, hhdig, hm2, hmdig, hs2, hsdig,
          rfl⟩
    have hD : matchDHMS cs = some (digitsToNat d,
        digitsToNat hh, digitsToNat hm, digitsToNat hs) :=
      (matchDHMS_some_iff cs _).mpr
        ⟨d, sp, rest, (digitsToNat hh, digitsToNat hm, digitsToNat hs),
          hcseq, hdne, hddig, hsp, hH, rfl⟩
    refine ⟨(digitsToNat d, digitsToNat hh, digitsToNat hm,
      digitsToNat hs), ?_, ?_⟩
    · unfold matchTimeout
      rw [hD]
    · simp only [totalOf]
      omega

theorem form_ne_nil (cs : List Char) (t : Nat) (hform : TimeoutForm cs t) :
    cs ≠ [] := by
  rcases hform with ⟨h, m, s, rfl, hne, _⟩ | ⟨d, sp, rest, hms, rfl, hne, _⟩
  · cases h with
    | nil => exact (hne rfl).elim
    | cons a tl => simp
  · cases d with
    | nil => exact (hne rfl).elim
    | cons a tl => simp

/-- `parse_timeout` on any input of one of the two accepted forms: the
total is range-checked and re-serialized canonically. -/
theorem parse_timeout_of_form (raw : String) (t : Nat)
    (hform : TimeoutForm (pyStripL raw.data) t) :
    parse_timeout (some raw) =
      if t = 0 ∨ 259200 < t then
        .error "Timeout exceeds maximum (3d) or is zero"
      else .ok (canonicalTimeout t) := by
  obtain ⟨v, hv, hteq⟩ := matchTimeout_of_form _ t hform
  have hne : pyStripL raw.data ≠ [] := form_ne_nil _ t hform
  simp only [parse_timeout]
  rw [if_neg (by simpa [List.isEmpty_iff] using hne), hv]
  subst hteq
  dsimp only
  by_cases hr : totalOf v = 0 ∨ 259200 < totalOf v
  · rw [if_pos (by simpa [MAX_SECONDS] using hr), if_pos hr]
  · rw [if_neg (by simpa [MAX_SECONDS] using hr), if_neg hr]

/-- `parse_timeout` on a non-blank input matching neither form raises the
format error. -/
theorem parse_timeout_of_no_form (raw : String)
    (hne : pyStripL raw.data ≠ [])
    (hnf : ∀ t, ¬TimeoutForm (pyStripL raw.data) t) :
    parse_timeout (some raw) = .error "Invalid timeout format" := by
  simp only [parse_timeout]
  rw [if_neg (by simpa [List.isEmpty_iff] using hne)]
  cases hM : matchTimeout (pyStripL raw.data) with
  | none => rfl
  | some v => exact absurd (form_of_matchTimeout _ v hM) (hnf (totalOf v))

/-- A successful `parse_timeout` on a non-blank input implies the input
was of one of the two forms, in range, and the output is the canonical
re-serialization. -/
theorem parse_timeout_ok_inv (raw out : String)
    (hne : pyStripL raw.data ≠ [])
    (h : parse_timeout (some raw) = .ok out) :
    ∃ t, TimeoutForm (pyStripL raw.data) t ∧ 0 < t ∧ t ≤ 259200 ∧
      out = canonicalTimeout t := by
  simp only [parse_timeout] at h
  rw [if_neg (by simpa [List.isEmpty_iff] using hne)] at h
  cases hM : matchTimeout (pyStripL raw.data) with
  | none =>
    rw [hM] at h
    cases h
  | some v =>
    rw [hM] at h
    dsimp only at h
    by_cases hr : totalOf v = 0 ∨ MAX_SECONDS < totalOf v
    · rw [if_pos (by simpa using hr)] at h
      cases h
    · rw [if_neg (by simpa using hr)] at h
      refine ⟨totalOf v, form_of_matchTimeout _ v hM, ?_, ?_,
        (Except.ok.inj h).symm⟩
      · omega
      · unfold MAX_SECONDS at hr
        omega

/-! ## Claim C7 -/

/-- Counterexample to C7 as stated: the blank input is of neither
accepted form, yet timeout parsing does not raise a validation error — it
returns the default `02:00:00`. -/
theorem claim7_counterexample :
    parse_timeout (some "") = .ok "02:00:00" ∧
      ∀ t, ¬TimeoutForm (pyStripL ("" : String).data) t := by
  constructor
  · rfl
  · intro t hform
    exact form_ne_nil _ t hform rfl

/-- Claim C7 (amended): for non-blank input (absent or blank input yields
the default `02:00:00` instead), timeout parsing accepts exactly the
forms `HH:MM:SS` and `<days>d HH:MM:SS`; the total must be strictly
positive and at most 3 days (259200 seconds); out-of-range input raises
the range error and non-matching input raises the format error, never
silently clamped; accepted input is re-serialized canonically (day
component omitted when zero, inside `canonicalTimeout`). -/
theorem claim7_timeout_validation (raw : String)
    (hne : pyStripL raw.data ≠ []) :
    (∀ t, TimeoutForm (pyStripL raw.data) t →
      (0 < t ∧ t ≤ 259200 →
        parse_timeout (some raw) = .ok (canonicalTimeout t)) ∧
      ((t = 0 ∨ 259200 < t) →
        parse_timeout (some raw) =
          .error "Timeout exceeds maximum (3d) or is zero")) ∧
    ((∀ t, ¬TimeoutForm (pyStripL raw.data) t) →
      parse_timeout (some raw) = .error "Invalid timeout format") ∧
    (∀ out, parse_timeout (some raw) = .ok out →
      ∃ t, TimeoutForm (pyStripL raw.data) t ∧ 0 < t ∧ t ≤ 259200 ∧
        out = canonicalTimeout t) := by
  refine ⟨?_, fun hnf => parse_timeout_of_no_form raw hne hnf,
    fun out h => parse_timeout_ok_inv raw out hne h⟩
  intro t hform
  have hpt := parse_timeout_of_form raw t hform
  constructor
  · intro hrange
    rw [hpt, if_neg (by omega)]
  · intro hr
    rw [hpt, if_pos hr]

/-- Witness for the amended C7 at the concrete input `"02:30:00"`. -/
theorem claim7_witness :
    pyStripL ("02:30:00" : String).data ≠ [] ∧
      ((∀ t, TimeoutForm (pyStripL ("02:30:00" : String).data) t →
        (0 < t ∧ t ≤ 259200 →
          parse_timeout (some "02:30:00") = .ok (canonicalTimeout t)) ∧
        ((t = 0 ∨ 259200 < t) →
          parse_timeout (some "02:30:00") =
            .error "Timeout exceeds maximum (3d) or is zero")) ∧
      ((∀ t, ¬TimeoutForm (pyStripL ("02:30:00" : String).data) t) →
        parse_timeout (some "02:30:00") =
          .error "Invalid timeout format") ∧
      (∀ out, parse_timeout (some "02:30:00") = .ok out →
        ∃ t, TimeoutForm (pyStripL ("02:30:00" : String).data) t ∧
          0 < t ∧ t ≤ 259200 ∧ out = canonicalTimeout t)) :=
  ⟨by decide, claim7_timeout_validation "02:30:00" (by decide)⟩

/-! ## Claim C10 -/

theorem digitChar_facts (k : Nat) (hk : k ≤ 9) :
    (Char.ofNat (48 + k)).isDigit = true ∧
      pySpace (Char.ofNat (48 + k)) = false ∧
      (Char.ofNat (48 + k)).toNat = 48 + k := by
  interval_cases k <;> exact ⟨by decide, by decide, by decide⟩

theorem mk2_form (h m s : Nat) (hh : h ≤ 99) (hm : m ≤ 99) (hs : s ≤ 99) :
    pyStripL (mk2 h ++ ":" ++ mk2 m ++ ":" ++ mk2 s).data =
        (mk2 h ++ ":" ++ mk2 m ++ ":" ++ mk2 s).data ∧
      TimeoutForm (mk2 h ++ ":" ++ mk2 m ++ ":" ++ mk2 s).data
        (h * 3600 + m * 60 + s) := by
  obtain ⟨hd1, hsp1, ht1⟩ := digitChar_facts (h / 10) (by omega)
  obtain ⟨hd2, hsp2, ht2⟩ := digitChar_facts (h % 10) (by omega)
  obtain ⟨hd3, hsp3, ht3⟩ := digitChar_facts (m / 10) (by omega)
  obtain ⟨hd4, hsp4, ht4⟩ := digitChar_facts (m % 10) (by omega)
  obtain ⟨hd5, hsp5, ht5⟩ := digitChar_facts (s / 10) (by omega)
  obtain ⟨hd6, hsp6, ht6⟩ := digitChar_facts (s % 10) (by omega)
  have hdata : (mk2 h ++ ":" ++ mk2 m ++ ":" ++ mk2 s).data =
      [Char.ofNat (48 + h / 10), Char.ofNat (48 + h % 10), ':',
        Char.ofNat (48 + m / 10), Char.ofNat (48 + m % 10), ':',
        Char.ofNat (48 + s / 10), Char.ofNat (48 + s % 10)] := rfl
  constructor
  · have hrev8 : ∀ a b c d e f g i : Char,
        ([a, b, c, d, e, f, g, i] : List Char).reverse =
          [i, g, f, e, d, c, b, a] := fun _ _ _ _ _ _ _ _ => rfl
    rw [hdata]
    unfold pyStripL
    rw [List.dropWhile_cons]
    simp only [hsp1, Bool.false_eq_true, if_false]
    rw [hrev8, List.dropWhile_cons]
    simp only [hsp6, Bool.false_eq_true, if_false]
    rw [hrev8]
  · rw [hdata]
    refine Or.inl ⟨[Char.ofNat (48 + h / 10), Char.ofNat (48 + h % 10)],
      [Char.ofNat (48 + m / 10), Char.ofNat (48 + m % 10)],
      [Char.ofNat (48 + s / 10), Char.ofNat (48 + s % 10)],
      rfl, by simp, by simp, ?_, rfl, ?_, rfl, ?_, ?_⟩
    · intro ch hc
      rcases List.mem_cons.mp hc with rfl | hc
      · exact hd1
      · rcases List.mem_cons.mp hc with rfl | hc
        · exact hd2
        · cases hc
    · intro ch hc
      rcases List.mem_cons.mp hc with rfl | hc
      · exact hd3
      · rcases List.mem_cons.mp hc with rfl | hc
        · exact hd4
        · cases hc
    · intro ch hc
      rcases List.mem_cons.mp hc with rfl | hc
      · exact hd5
      · rcases List.mem_cons.mp hc with rfl | hc
        · exact hd6
        · cases hc
    · unfold digitsToNat
      simp only [List.foldl_cons, List.foldl_nil, ht1, ht2, ht3, ht4,
        ht5, ht6]
      omega

/-- Claim C10: timeout parsing does not require minutes and seconds below
60: any two-digit values up to 99 are accepted (total permitting), the
total is renormalized into canonical form, and two distinct inputs
denoting the same total yield the same canonical output. -/
theorem claim10_lenient_fields (h m s : Nat) (hh : h ≤ 99) (hm : m ≤ 99)
    (hs : s ≤ 99) (hpos : 0 < h * 3600 + m * 60 + s)
    (hmax : h * 3600 + m * 60 + s ≤ 259200) :
    parse_timeout (some (mk2 h ++ ":" ++ mk2 m ++ ":" ++ mk2 s)) =
        .ok (canonicalTimeout (h * 3600 + m * 60 + s)) ∧
      ∀ h' m' s', h' ≤ 99 → m' ≤ 99 → s' ≤ 99 →
        h' * 3600 + m' * 60 + s' = h * 3600 + m * 60 + s →
        parse_timeout (some (mk2 h' ++ ":" ++ mk2 m' ++ ":" ++ mk2 s')) =
          parse_timeout (some (mk2 h ++ ":" ++ mk2 m ++ ":" ++ mk2 s)) := by
  have hmain : ∀ h0 m0 s0 : Nat, h0 ≤ 99 → m0 ≤ 99 → s0 ≤ 99 →
      0 < h0 * 3600 + m0 * 60 + s0 → h0 * 3600 + m0 * 60 + s0 ≤ 259200 →
      parse_timeout (some (mk2 h0 ++ ":" ++ mk2 m0 ++ ":" ++ mk2 s0)) =
        .ok (canonicalTimeout (h0 * 3600 + m0 * 60 + s0)) := by
    intro h0 m0 s0 hh0 hm0 hs0 hpos0 hmax0
    obtain ⟨hstrip, hform⟩ := mk2_form h0 m0 s0 hh0 hm0 hs0
    have := parse_timeout_of_form (mk2 h0 ++ ":" ++ mk2 m0 ++ ":" ++ mk2 s0)
      (h0 * 3600 + m0 * 60 + s0) (by rw [hstrip]; exact hform)
    rw [this, if_neg (by omega)]
  refine ⟨hmain h m s hh hm hs hpos hmax, ?_⟩
  intro h' m' s' hh' hm' hs' heq
  rw [hmain h' m' s' hh' hm' hs' (by omega) (by omega),
    hmain h m s hh hm hs hpos hmax, heq]

/-- Witness for C10: `"00:99:00"` is accepted and re-serialized as
`"01:39:00"`, and `"01:39:00"` itself parses to the same output. -/
theorem claim10_witness :
    (0 : Nat) ≤ 99 ∧ (99 : Nat) ≤ 99 ∧
      0 < 0 * 3600 + 99 * 60 + 0 ∧ 0 * 3600 + 99 * 60 + 0 ≤ 259200 ∧
      parse_timeout (some (mk2 0 ++ ":" ++ mk2 99 ++ ":" ++ mk2 0)) =
        .ok (canonicalTimeout (0 * 3600 + 99 * 60 + 0)) ∧
      mk2 0 ++ ":" ++ mk2 99 ++ ":" ++ mk2 0 = "00:99:00" ∧
      canonicalTimeout (0 * 3600 + 99 * 60 + 0) = "01:39:00" ∧
      parse_timeout (some (mk2 1 ++ ":" ++ mk2 39 ++ ":" ++ mk2 0)) =
        parse_timeout (some (mk2 0 ++ ":" ++ mk2 99 ++ ":" ++ mk2 0)) :=
  ⟨by decide, by decide, by decide, by decide,
    (claim10_lenient_fields 0 99 0 (by decide) (by decide) (by decide)
      (by decide) (by decide)).1,
    by rfl, by rfl,
    (claim10_lenient_fields 0 99 0 (by decide) (by decide) (by decide)
      (by decide) (by decide)).2 1 39 0 (by decide) (by decide) (by decide)
      (by decide)⟩

end Blocklist
